import Mathlib

/-!
Shallow embedding of the `gar` agent runtime (Go) for specification checking.

Go strings are modelled as `List Char` (`GoStr`): one element per byte for the
ASCII data all claims exercise, which matches Go's byte-indexed slicing and
`len`.  Go `int`/`time.Duration` are modelled as `Int` (overflow does not occur
at the magnitudes the code handles), Go maps as association lists with
insert-at-front shadowing (same lookup semantics), channels as the list of
events sent on them, and goroutine schedules/queues as call-indexed scripts.
-/

namespace Gar

/-- Go string model: a list of characters (bytes for the ASCII payloads used
here).  `len`, slicing and concatenation coincide with Go's byte semantics. -/
abbrev GoStr := List Char

/-- Convert a Lean string literal to the Go string model. -/
def str (s : String) : GoStr := s.data

/-- Character class used by `strings.TrimSpace` (ASCII fragment of
`unicode.IsSpace`; the session/provider payloads are ASCII). -/
def isGoSpace (c : Char) : Bool :=
  c = ' ' || c = '\t' || c = '\n' || c = '\r' || c = '\x0b' || c = '\x0c'

/-- Model of `strings.TrimSpace` / `bytes.TrimSpace`. -/
def trimGo (s : GoStr) : GoStr :=
  (s.dropWhile isGoSpace).reverse.dropWhile isGoSpace |>.reverse

/-- Decimal digits, fuelled (the fuel `n + 1` always suffices since the
argument shrinks by a factor of ten each step). -/
def natDigitsAux : Nat → Nat → GoStr
  | 0, _ => []
  | fuel + 1, n =>
    if n < 10 then [Char.ofNat (48 + n)]
    else natDigitsAux fuel (n / 10) ++ [Char.ofNat (48 + n % 10)]

/-- Decimal digits of a natural number, most significant first
(`strconv`-style rendering used by `fmt.Sprintf("%d", n)`). -/
def natDigits (n : Nat) : GoStr := natDigitsAux (n + 1) n

/-- Model of `fmt.Sprintf("%06d", n)`: decimal rendering left-padded with
zeros to width 6. -/
def zeroPad6 (n : Nat) : GoStr :=
  let d := natDigits n
  List.replicate (6 - d.length) '0' ++ d

/-- `strings.Join` with a separator. -/
def joinGo (sep : GoStr) : List GoStr → GoStr
  | [] => []
  | [x] => x
  | x :: xs => x ++ sep ++ joinGo sep xs

end Gar

namespace Gar

/-! ## Canonical LLM data model (`internal/llm/core/message.go`, `facade.go`) -/

/-- `core.Role`. -/
inductive Role where
  | user
  | assistant
  | tool
deriving DecidableEq, Repr

/-- `core.StopReason`. -/
inductive StopReason where
  | stop
  | length
  | toolUse
  | error
  | aborted
deriving DecidableEq, Repr

/-- `core.ContentType` (v0.1: text only). -/
inductive ContentType where
  | text
deriving DecidableEq, Repr

/-- `core.ContentBlock`. -/
structure ContentBlock where
  type : ContentType
  text : GoStr
deriving DecidableEq, Repr

/-- `core.ToolCall`; `arguments` is the raw JSON byte sequence. -/
structure ToolCall where
  id : GoStr
  name : GoStr
  arguments : GoStr
deriving DecidableEq, Repr

/-- `core.ToolResult`. -/
structure ToolResult where
  toolCallID : GoStr
  toolName : GoStr
  content : GoStr
  isError : Bool
deriving DecidableEq, Repr

/-- `core.Message`. -/
structure Message where
  role : Role
  content : List ContentBlock := []
  toolCalls : List ToolCall := []
  toolResult : Option ToolResult := none
deriving DecidableEq, Repr

/-- `core.Usage` (token buckets; `CostUSD` is omitted from the model — it is
a float the claims never mention). -/
structure Usage where
  inputTokens : Int := 0
  outputTokens : Int := 0
  cacheReadTokens : Int := 0
  cacheWriteTokens : Int := 0
  totalTokens : Int := 0
deriving DecidableEq, Repr

/-- `core.Usage.TokenCount`. -/
def Usage.tokenCount (u : Usage) : Int :=
  u.inputTokens + u.outputTokens + u.cacheReadTokens + u.cacheWriteTokens

/-- Go `error` values relevant to the embedded code, as a closed sum.
`wrap` models `fmt.Errorf("...: %w", err)`; `retryable` models
`core.MarkRetryable`. -/
inductive GoError where
  | canceled
  | deadlineExceeded
  | msg (s : String)
  | wrap (s : String) (e : GoError)
  | retryable (e : GoError)
  | requestRequired
  | maxTurnsExceeded
  | compactionNotNeeded
  | branchTargetNotFound
  | pathOutsideWorkspace
  | sdk (retry : Bool) (s : String)
deriving DecidableEq, Repr

/-- `errors.Is(err, context.Canceled) || errors.Is(err, context.DeadlineExceeded)`. -/
def GoError.isCanceled : GoError → Bool
  | .canceled => true
  | .deadlineExceeded => true
  | .wrap _ e => e.isCanceled
  | .retryable e => e.isCanceled
  | _ => false

/-- `core.IsRetryableError`: `errors.As` finds a `retryableError` in the chain. -/
def GoError.isRetryableError : GoError → Bool
  | .retryable _ => true
  | .wrap _ e => e.isRetryableError
  | _ => false

/-- `core.MarkRetryable`. -/
def markRetryable (e : GoError) : GoError := .retryable e

/-- `core.EventType`. -/
inductive EventType where
  | start
  | contentBlockStart
  | textDelta
  | toolCallStart
  | toolCallDelta
  | toolCallEnd
  | toolResult
  | usage
  | done
  | error
  | queuedMessage
deriving DecidableEq, Repr

/-- `core.ContentBlockStart` payload. -/
structure ContentBlockStartPayload where
  index : Int
  type : GoStr
  id : GoStr := []
  name : GoStr := []
  toolUseID : GoStr := []
  text : GoStr := []
  thinking : GoStr := []
  signature : GoStr := []
  data : GoStr := []
  input : GoStr := []
deriving DecidableEq, Repr

/-- `core.DonePayload`. -/
structure DonePayload where
  reason : StopReason
  usage : Usage := {}
deriving DecidableEq, Repr

/-- `core.Event` / `llm.Event`: tag plus the optional payloads of the Go
struct. -/
structure Event where
  type : EventType
  contentBlockStart : Option ContentBlockStartPayload := none
  textDelta : GoStr := []
  toolCall : Option ToolCall := none
  toolCallDelta : GoStr := []
  toolResult : Option ToolResult := none
  usage : Option Usage := none
  done : Option DonePayload := none
  err : Option GoError := none
  message : Option Message := none
deriving DecidableEq, Repr

/-- An event is terminal when its tag is `done` or `error`. -/
def Event.isTerminal (e : Event) : Bool :=
  e.type = EventType.done || e.type = EventType.error

end Gar

namespace Gar

/-! ## Tool-result truncation (`internal/agent`, constants and
`truncateToolResultContent`) -/

def maxToolResultContentLen : Nat := 10000

def toolResultHeadLen : Nat := 4000

def toolResultTailLen : Nat := 4000

/-- `toolResultTruncateMark = "\n...[truncated]...\n"`. -/
def toolResultTruncateMark : GoStr := str "\n...[truncated]...\n"

/-- `truncateToolResultContent` from `internal/agent`: contents longer than
10 000 bytes are replaced by the first 4 000 bytes, the truncation mark, and
the last 4 000 bytes. -/
def truncateToolResultContent (content : GoStr) : GoStr :=
  if content.length ≤ maxToolResultContentLen then content
  else
    content.take toolResultHeadLen ++ toolResultTruncateMark ++
      content.drop (content.length - toolResultTailLen)

end Gar

namespace Gar

/-! ## JSON validity (`encoding/json`'s `json.Valid`, used by the provider)

A fuelled recursive-descent validator over the byte/char list, following the
RFC 8259 grammar the Go scanner enforces (leading-zero and bare-fraction
numbers rejected, control characters in strings rejected, no trailing data).
-/

/-- JSON insignificant whitespace. -/
def isJsonWs (c : Char) : Bool :=
  c = ' ' || c = '\t' || c = '\n' || c = '\r'

def jsonSkipWs (s : GoStr) : GoStr := s.dropWhile isJsonWs

def isHexChar (c : Char) : Bool :=
  c.isDigit || ('a' ≤ c && c ≤ 'f') || ('A' ≤ c && c ≤ 'F')

/-- Scan a JSON string body (the opening quote already consumed); returns the
rest of the input after the closing quote. -/
def jsonScanString : Nat → GoStr → Option GoStr
  | 0, _ => none
  | _, [] => none
  | fuel + 1, c :: rest =>
    if c = '"' then some rest
    else if c = '\\' then
      match rest with
      | [] => none
      | e :: rest2 =>
        if e = 'u' then
          match rest2 with
          | h1 :: h2 :: h3 :: h4 :: rest3 =>
            if isHexChar h1 && isHexChar h2 && isHexChar h3 && isHexChar h4 then
              jsonScanString fuel rest3
            else none
          | _ => none
        else if e = '"' || e = '\\' || e = '/' || e = 'b' || e = 'f' || e = 'n' ||
            e = 'r' || e = 't' then
          jsonScanString fuel rest2
        else none
    else if c.toNat < 32 then none
    else jsonScanString fuel rest

/-- Scan the optional fraction part of a JSON number. -/
def jsonScanFrac (s : GoStr) : Option GoStr :=
  match s with
  | '.' :: r =>
    match r with
    | c :: _ => if c.isDigit then some (r.dropWhile Char.isDigit) else none
    | [] => none
  | _ => some s

/-- Scan the optional exponent part of a JSON number. -/
def jsonScanExp (s : GoStr) : Option GoStr :=
  match s with
  | c :: r =>
    if c = 'e' || c = 'E' then
      let r2 := match r with
        | s :: r' => if s = '+' || s = '-' then r' else r
        | [] => r
      match r2 with
      | d :: _ => if d.isDigit then some (r2.dropWhile Char.isDigit) else none
      | [] => none
    else some s
  | [] => some s

/-- Scan a complete JSON number. -/
def jsonScanNumber (s : GoStr) : Option GoStr :=
  let s1 := match s with
    | '-' :: r => r
    | _ => s
  let afterInt : Option GoStr := match s1 with
    | '0' :: r => some r
    | c :: r => if c.isDigit then some (r.dropWhile Char.isDigit) else none
    | [] => none
  match afterInt with
  | none => none
  | some r =>
    match jsonScanFrac r with
    | none => none
    | some r2 => jsonScanExp r2

/-- Core validator.  `mode = true` expects a value next; `mode = false` has
just finished a value.  The stack records enclosing containers
(`true` = object, `false` = array). -/
def jsonRun : Nat → Bool → List Bool → GoStr → Bool
  | 0, _, _, _ => false
  | fuel + 1, true, stack, s =>
    match jsonSkipWs s with
    | '{' :: r =>
      match jsonSkipWs r with
      | '}' :: r2 => jsonRun fuel false stack r2
      | '"' :: r2 =>
        match jsonScanString (r2.length + 1) r2 with
        | some r3 =>
          match jsonSkipWs r3 with
          | ':' :: r4 => jsonRun fuel true (true :: stack) r4
          | _ => false
        | none => false
      | _ => false
    | '[' :: r =>
      match jsonSkipWs r with
      | ']' :: r2 => jsonRun fuel false stack r2
      | _ => jsonRun fuel true (false :: stack) r
    | '"' :: r =>
      match jsonScanString (r.length + 1) r with
      | some r2 => jsonRun fuel false stack r2
      | none => false
    | 't' :: 'r' :: 'u' :: 'e' :: r => jsonRun fuel false stack r
    | 'f' :: 'a' :: 'l' :: 's' :: 'e' :: r => jsonRun fuel false stack r
    | 'n' :: 'u' :: 'l' :: 'l' :: r => jsonRun fuel false stack r
    | other =>
      match jsonScanNumber other with
      | some r => jsonRun fuel false stack r
      | none => false
  | fuel + 1, false, stack, s =>
    match stack with
    | [] => (jsonSkipWs s).isEmpty
    | true :: rest =>
      match jsonSkipWs s with
      | ',' :: r =>
        match jsonSkipWs r with
        | '"' :: r2 =>
          match jsonScanString (r2.length + 1) r2 with
          | some r3 =>
            match jsonSkipWs r3 with
            | ':' :: r4 => jsonRun fuel true (true :: rest) r4
            | _ => false
          | none => false
        | _ => false
      | '}' :: r => jsonRun fuel false rest r
      | _ => false
    | false :: rest =>
      match jsonSkipWs s with
      | ',' :: r => jsonRun fuel true (false :: rest) r
      | ']' :: r => jsonRun fuel false rest r
      | _ => false

/-- Model of Go's `json.Valid`. -/
def jsonValid (s : GoStr) : Bool := jsonRun (s.length + 2) true [] s

/-- A byte sequence that parses as a JSON *object* (the spec's stronger
requirement): valid JSON whose first significant byte opens an object. -/
def jsonIsObject (s : GoStr) : Bool :=
  jsonValid s &&
    match jsonSkipWs s with
    | '{' :: _ => true
    | _ => false

end Gar

namespace Gar

/-! ## Retry policy (`internal/llm/core/retry.go`) -/

/-- `core.RetryPolicy`; delays are `time.Duration` nanoseconds modelled as
`Int` (no overflow at realistic magnitudes). -/
structure RetryPolicy where
  maxRetries : Int := 0
  baseDelay : Int := 0
  maxDelay : Int := 0
deriving DecidableEq, Repr

def defaultRetryMaxRetries : Int := 3

def defaultRetryBaseDelay : Int := 300000000

def defaultRetryMaxDelay : Int := 5000000000

/-- `core.NormalizeRetryPolicy`. -/
def NormalizeRetryPolicy (policy : RetryPolicy) : RetryPolicy :=
  let policy :=
    if policy.maxRetries < 0 then { policy with maxRetries := 0 }
    else if policy.maxRetries = 0 then { policy with maxRetries := defaultRetryMaxRetries }
    else policy
  let policy :=
    if policy.baseDelay ≤ 0 then { policy with baseDelay := defaultRetryBaseDelay } else policy
  if policy.maxDelay ≤ 0 then { policy with maxDelay := defaultRetryMaxDelay } else policy

/-- `core.MergeRetryPolicy`. -/
def MergeRetryPolicy (base override : RetryPolicy) : RetryPolicy :=
  let merged := NormalizeRetryPolicy base
  let merged := if override.maxRetries > 0 then { merged with maxRetries := override.maxRetries } else merged
  let merged := if override.baseDelay > 0 then { merged with baseDelay := override.baseDelay } else merged
  let merged := if override.maxDelay > 0 then { merged with maxDelay := override.maxDelay } else merged
  if merged.maxDelay < merged.baseDelay then { merged with maxDelay := merged.baseDelay } else merged

/-- The doubling loop inside `ComputeBackoffDelay`: double `attempt` times,
capping at `maxDelay` (with early break once the cap is reached). -/
def backoffLoop (maxDelay : Int) : Int → Nat → Int
  | d, 0 => d
  | d, n + 1 =>
    let d2 := d * 2
    if d2 ≥ maxDelay then maxDelay else backoffLoop maxDelay d2 n

/-- `core.ComputeBackoffDelay`.  The random jitter factor
`0.8 + rand.Float64()*0.4` is abstracted as a rational `jitter.1 / jitter.2`
in `[4/5, 6/5)` with positive denominator; the
`time.Duration(float64(delay)*jitter)` conversion truncates, which for the
nonnegative delays of a normalized policy equals this floor division. -/
def ComputeBackoffDelay (policy : RetryPolicy) (attempt : Nat) (jitter : Int × Int) : Int :=
  let delay := backoffLoop policy.maxDelay policy.baseDelay attempt
  let delay := if delay > policy.maxDelay then policy.maxDelay else delay
  (delay * jitter.1) / jitter.2

end Gar

namespace Gar

/-! ## Anthropic provider stream (`anthropicprovider`: `streamState`,
`handleSDKStreamEvent`, `streamOnce`, `streamWithRetry`, `Stream`) -/

/-- `toolCallAccumulator`. -/
structure ToolCallAccumulator where
  id : GoStr
  name : GoStr
  buf : GoStr
deriving DecidableEq, Repr

/-- Association-list model of the Go map `map[int]*toolCallAccumulator`. -/
abbrev AccMap := List (Int × ToolCallAccumulator)

def accLookup (m : AccMap) (i : Int) : Option ToolCallAccumulator :=
  (m.find? (fun p => p.1 = i)).map (·.2)

def accDelete (m : AccMap) (i : Int) : AccMap :=
  m.filter (fun p => ¬ p.1 = i)

def accInsert (m : AccMap) (i : Int) (a : ToolCallAccumulator) : AccMap :=
  (i, a) :: accDelete m i

/-- `streamState`. -/
structure StreamState where
  usage : Usage := {}
  reason : StopReason := .stop
  emittedVisible : Bool := false
  startEmitted : Bool := false
  emittedDone : Bool := false
  toolAccumulators : AccMap := []
deriving DecidableEq, Repr

/-- `applyStartUsage` / `applyDeltaUsage` (both copy the four bucket
counters from the wire payload). -/
def applyUsage (u : Usage) : Usage :=
  { inputTokens := u.inputTokens, outputTokens := u.outputTokens,
    cacheReadTokens := u.cacheReadTokens, cacheWriteTokens := u.cacheWriteTokens,
    totalTokens := 0 }

/-- `mapStopReason` (`params.go`). -/
def mapStopReason (reason : GoStr) : Except GoError StopReason :=
  if reason = str "end_turn" || reason = str "stop_sequence" || reason = str "pause_turn" then
    .ok .stop
  else if reason = str "max_tokens" then .ok .length
  else if reason = str "tool_use" then .ok .toolUse
  else if reason = str "refusal" || reason = str "sensitive" then .ok .error
  else .error (.msg "unhandled stop reason")

/-- SDK content blocks as seen by `handleSDKStreamEvent`.  A `toolUse` /
`serverToolUse` block carries the result of `core.MarshalToolInput` on its
opaque `Input`; the UI-only `Raw` payload is not modelled. -/
inductive SDKBlock where
  | text (text : GoStr)
  | thinking (thinking signature : GoStr)
  | redactedThinking (data : GoStr)
  | toolUse (id name : GoStr) (input : Except GoError GoStr)
  | serverToolUse (id name : GoStr) (input : Except GoError GoStr)
  | webSearchToolResult (toolUseID : GoStr)
  | unsupported
deriving Repr

/-- SDK content-block deltas. -/
inductive SDKDelta where
  | text (s : GoStr)
  | inputJSON (fragment : GoStr)
  | other
deriving Repr

/-- SDK stream events (the `anthropic.MessageStreamEventUnion` variants the
switch distinguishes). -/
inductive SDKEvent where
  | messageStart (usage : Usage)
  | contentBlockStart (index : Int) (block : SDKBlock)
  | contentBlockDelta (index : Int) (delta : SDKDelta)
  | contentBlockStop (index : Int)
  | messageDelta (stopReason : GoStr) (usage : Usage)
  | messageStop
  | other
deriving Repr

/-- `handleSDKStreamEvent`: canonical events emitted, updated state, and the
error (if the step fails; no events are emitted by a failing step). -/
def handleSDKStreamEvent (ev : SDKEvent) (st : StreamState) :
    List Event × StreamState × Option GoError :=
  match ev with
  | .messageStart u =>
    let u1 := applyUsage u
    let u2 := { u1 with totalTokens := u1.tokenCount }
    let st := { st with usage := u2 }
    ([{ type := .usage, usage := some st.usage }], st, none)
  | .contentBlockStart index block =>
    match block with
    | .text t =>
      let payload : ContentBlockStartPayload := { index := index, type := str "text", text := t }
      ([{ type := .contentBlockStart, contentBlockStart := some payload }], st, none)
    | .thinking th sig =>
      let payload : ContentBlockStartPayload :=
        { index := index
          type := str "thinking"
          thinking := th
          signature := sig }
      ([{ type := .contentBlockStart, contentBlockStart := some payload }], st, none)
    | .redactedThinking d =>
      let payload : ContentBlockStartPayload :=
        { index := index
          type := str "redacted_thinking"
          data := d }
      ([{ type := .contentBlockStart, contentBlockStart := some payload }], st, none)
    | .toolUse id name input =>
      match input with
      | .error e => ([], st, some (.wrap "marshal tool_use input" e))
      | .ok rawInput =>
        let acc : ToolCallAccumulator :=
          { id := id
            name := name
            buf := if 0 < rawInput.length && ¬ rawInput = str "\x7b\x7d" then rawInput else [] }
        let st :=
          { st with
            toolAccumulators := accInsert st.toolAccumulators index acc
            emittedVisible := true }
        let payload : ContentBlockStartPayload :=
          { index := index
            type := str "tool_use"
            id := id
            name := name
            input := rawInput }
        let call : ToolCall := { id := id, name := name, arguments := rawInput }
        ([{ type := .contentBlockStart, contentBlockStart := some payload },
          { type := .toolCallStart, toolCall := some call }], st, none)
    | .serverToolUse id name input =>
      match input with
      | .error e => ([], st, some (.wrap "marshal server_tool_use input" e))
      | .ok rawInput =>
        let payload : ContentBlockStartPayload :=
          { index := index
            type := str "server_tool_use"
            id := id
            name := name
            input := rawInput }
        ([{ type := .contentBlockStart, contentBlockStart := some payload }], st, none)
    | .webSearchToolResult tid =>
      let payload : ContentBlockStartPayload :=
        { index := index
          type := str "web_search_tool_result"
          toolUseID := tid }
      ([{ type := .contentBlockStart, contentBlockStart := some payload }], st, none)
    | .unsupported => ([], st, some (.msg "unsupported content_block_start block"))
  | .contentBlockDelta index delta =>
    match delta with
    | .text s =>
      ([{ type := .textDelta, textDelta := s }], { st with emittedVisible := true }, none)
    | .inputJSON fragment =>
      match accLookup st.toolAccumulators index with
      | none => ([], st, some (.msg "tool_call accumulator not found for index"))
      | some acc =>
        let st :=
          { st with
            toolAccumulators :=
              accInsert st.toolAccumulators index { acc with buf := acc.buf ++ fragment }
            emittedVisible := true }
        ([{ type := .toolCallDelta, toolCallDelta := fragment }], st, none)
    | .other => ([], st, none)
  | .contentBlockStop index =>
    match accLookup st.toolAccumulators index with
    | none => ([], st, none)
    | some acc =>
      let st := { st with toolAccumulators := accDelete st.toolAccumulators index }
      let rawArgs0 := trimGo acc.buf
      let rawArgs := if rawArgs0.length = 0 then str "\x7b\x7d" else rawArgs0
      if jsonValid rawArgs then
        let call : ToolCall := { id := acc.id, name := acc.name, arguments := rawArgs }
        ([{ type := .toolCallEnd, toolCall := some call }],
          { st with emittedVisible := true }, none)
      else ([], st, some (.msg "tool_call arguments are not valid JSON"))
  | .messageDelta stopReason u =>
    let mapped : Except GoError StopReason :=
      if 0 < stopReason.length then mapStopReason stopReason else .ok st.reason
    match mapped with
    | .error e => ([], st, some e)
    | .ok r =>
      let u1 := applyUsage u
      let u2 := { u1 with totalTokens := u1.tokenCount }
      let st := { st with reason := r, usage := u2 }
      ([{ type := .usage, usage := some st.usage }], st, none)
  | .messageStop =>
    let st := { st with emittedDone := true }
    ([{ type := .done, done := some { reason := st.reason, usage := st.usage } }], st, none)
  | .other => ([], st, none)

/-- One SDK stream attempt as scripted data: the events the SDK delivers and
the terminal `stream.Err()` (flag = `isRetryableProviderError`). -/
structure StreamScript where
  events : List SDKEvent
  streamErr : Option (Bool × String) := none
deriving Repr

/-- The `for stream.Next()` body: process events until a handler error or
`emittedDone`. -/
def processSDKEvents : List SDKEvent → StreamState → List Event × StreamState × Option GoError
  | [], st => ([], st, none)
  | ev :: rest, st =>
    let (evs, st', err?) := handleSDKStreamEvent ev st
    match err? with
    | some e => (evs, st', some e)
    | none =>
      if st'.emittedDone then (evs, st', none)
      else
        let (evs2, st2, e2) := processSDKEvents rest st'
        (evs ++ evs2, st2, e2)

/-- `streamOnce`: emit `start` on the first attempt, pump the SDK stream,
classify the terminal condition. -/
def streamOnce (script : StreamScript) (st : StreamState) :
    List Event × StreamState × Option GoError :=
  let (evs0, st) :=
    if st.startEmitted then ([], st)
    else ([({ type := .start } : Event)], { st with startEmitted := true })
  let (evs1, st, err?) := processSDKEvents script.events st
  match err? with
  | some e => (evs0 ++ evs1, st, some e)
  | none =>
    if st.emittedDone then (evs0 ++ evs1, st, none)
    else
      match script.streamErr with
      | some (r, m) =>
        let wrapped := GoError.wrap "anthropic sdk stream" (.sdk r m)
        (evs0 ++ evs1, st, some (if r then markRetryable wrapped else wrapped))
      | none =>
        (evs0 ++ evs1, st,
          some (markRetryable (.msg "anthropic stream ended without message_stop")))

/-- Result of a `streamWithRetry` run: per-attempt emitted events, the backoff
delays slept between attempts, the loop's error, and the final stream state. -/
structure RetryRunResult where
  attemptEvents : List (List Event)
  sleeps : List Int
  err : Option GoError
  finalState : StreamState
deriving Repr

/-- The no-retry condition of `streamWithRetry`:
`!core.IsRetryableError(err) || state.emittedVisible || attempt >= retry.MaxRetries`. -/
def retryStop (retry : RetryPolicy) (e : GoError) (st : StreamState) (attempt : Nat) : Bool :=
  ¬ e.isRetryableError || st.emittedVisible || decide ((attempt : Int) ≥ retry.maxRetries)

/-- `streamWithRetry`, with the per-attempt SDK behaviour and the jitter draws
given as call-indexed scripts.  The fuel argument starts at
`maxRetries.toNat` and is never exhausted before the `attempt ≥ maxRetries`
guard fires (the context is not cancelled in this model, so `SleepContext`
always succeeds). -/
def streamWithRetryAux (scripts : Nat → StreamScript) (jitters : Nat → Int × Int)
    (retry : RetryPolicy) : Nat → Nat → StreamState → RetryRunResult
  | 0, attempt, st =>
    let (evs, st', err?) := streamOnce (scripts attempt) st
    { attemptEvents := [evs], sleeps := [], err := err?, finalState := st' }
  | fuel + 1, attempt, st =>
    let (evs, st', err?) := streamOnce (scripts attempt) st
    match err? with
    | none => { attemptEvents := [evs], sleeps := [], err := none, finalState := st' }
    | some e =>
      if e.isCanceled then
        { attemptEvents := [evs], sleeps := [], err := some e, finalState := st' }
      else if retryStop retry e st' attempt then
        { attemptEvents := [evs], sleeps := [], err := some e, finalState := st' }
      else
        let d := ComputeBackoffDelay retry attempt (jitters attempt)
        let r := streamWithRetryAux scripts jitters retry fuel (attempt + 1) st'
        { attemptEvents := evs :: r.attemptEvents, sleeps := d :: r.sleeps,
          err := r.err, finalState := r.finalState }

/-- `streamWithRetry` entered as `Stream` does: attempt 0, fresh state. -/
def streamWithRetryRun (scripts : Nat → StreamScript) (jitters : Nat → Int × Int)
    (retry : RetryPolicy) : RetryRunResult :=
  streamWithRetryAux scripts jitters retry retry.maxRetries.toNat 0 { reason := .stop }

/-- The full event sequence `Stream`'s goroutine places on the channel: all
attempt events, plus the terminal `error` event when `streamWithRetry`
returns an error. -/
def providerRunEvents (scripts : Nat → StreamScript) (jitters : Nat → Int × Int)
    (retry : RetryPolicy) : List Event :=
  let r := streamWithRetryRun scripts jitters retry
  let evs := r.attemptEvents.flatten
  match r.err with
  | none => evs
  | some e =>
    let reason := if e.isCanceled then StopReason.aborted else StopReason.error
    evs ++ [{ type := .error, done := some { reason := reason, usage := r.finalState.usage },
              err := some (.wrap "anthropic stream" e) }]

end Gar

namespace Gar

/-! ## Agent loop (`internal/agent`: `Agent.Run`, `runLoop`,
`forwardProviderEvents`, `assistantAccumulator`, clones, skips)

The provider and the two dequeue hooks are scripted by call index (each Go
call to `provider.Stream` / `dequeueSteeringMessages` /
`dequeueFollowUpMessages` returns the next scripted answer, which models any
concurrent `Steer`/`FollowUp` interleaving).  The run's context is not
cancelled in this model; `executeToolCall` failures cover the error paths. -/

/-- `llm.ToolSpec`. -/
structure ToolSpec where
  name : GoStr := []
  description : GoStr := []
  schema : GoStr := []
deriving DecidableEq, Repr

/-- `llm.Request` (fields the agent loop touches; `Temperature *float64` is
modelled as an optional rational — it is only ever copied, never computed
with). -/
structure Request where
  model : GoStr := []
  system : GoStr := []
  messages : List Message := []
  tools : List ToolSpec := []
  maxTokens : Int := 0
  temperature : Option ℚ := none
  metadata : List (GoStr × GoStr) := []
  retry : RetryPolicy := {}
deriving DecidableEq, Repr

/-- `cloneToolCall` (copies the arguments byte slice). -/
def cloneToolCall (call : ToolCall) : ToolCall :=
  { id := call.id, name := call.name, arguments := call.arguments }

/-- `cloneToolCalls`. -/
def cloneToolCalls (calls : List ToolCall) : List ToolCall :=
  calls.map cloneToolCall

/-- `cloneMessage` (copies content and tool-call slices, dereferences the
tool-result pointer). -/
def cloneMessage (msg : Message) : Message :=
  { role := msg.role
    content := msg.content
    toolCalls := cloneToolCalls msg.toolCalls
    toolResult := msg.toolResult }

/-- `cloneMessages`. -/
def cloneMessages (messages : List Message) : List Message :=
  messages.map cloneMessage

/-- `cloneTools`. -/
def cloneTools (tools : List ToolSpec) : List ToolSpec :=
  tools.map (fun t => { name := t.name, description := t.description, schema := t.schema })

/-- `cloneMetadata`. -/
def cloneMetadata (metadata : List (GoStr × GoStr)) : List (GoStr × GoStr) :=
  metadata.map (fun p => (p.1, p.2))

/-- `cloneRequest`: shallow struct copy plus deep copies of messages, tools,
metadata and the temperature pointer. -/
def cloneRequest (req : Request) : Request :=
  { req with
    messages := cloneMessages req.messages
    tools := cloneTools req.tools
    metadata := cloneMetadata req.metadata
    temperature := match req.temperature with
      | some v => some v
      | none => none }

/-- `skippedToolCallMessage`. -/
def skippedToolCallMessage : GoStr := str "Skipped due to queued user message."

/-- `skipToolCall`: the synthesized error result for a tool call skipped
because a steering message is queued. -/
def skipToolCall (call : ToolCall) : Message :=
  { role := .tool
    toolResult := some
      { toolCallID := call.id
        toolName := call.name
        content := skippedToolCallMessage
        isError := true } }

/-- `assistantAccumulator`. -/
structure AssistantAccumulator where
  text : GoStr := []
  toolCallOrder : List GoStr := []
  toolCallsByID : List (GoStr × ToolCall) := []
deriving DecidableEq, Repr

/-- `assistantAccumulator.upsertToolCall`. -/
def AssistantAccumulator.upsertToolCall (a : AssistantAccumulator) (call : ToolCall) :
    AssistantAccumulator :=
  let order :=
    if (a.toolCallsByID.find? (fun p => p.1 = call.id)).isSome then a.toolCallOrder
    else a.toolCallOrder ++ [call.id]
  { a with toolCallOrder := order
           toolCallsByID := (call.id, cloneToolCall call) :: a.toolCallsByID }

/-- `assistantAccumulator.consume`. -/
def AssistantAccumulator.consume (a : AssistantAccumulator) (ev : Event) :
    AssistantAccumulator :=
  match ev.type with
  | .contentBlockStart =>
    match ev.contentBlockStart with
    | some p => if p.type = str "text" && ¬ p.text = [] then { a with text := a.text ++ p.text } else a
    | none => a
  | .textDelta => { a with text := a.text ++ ev.textDelta }
  | .toolCallStart =>
    match ev.toolCall with
    | some c => a.upsertToolCall c
    | none => a
  | .toolCallEnd =>
    match ev.toolCall with
    | some c => a.upsertToolCall c
    | none => a
  | _ => a

/-- `assistantAccumulator.buildMessage`. -/
def AssistantAccumulator.buildMessage (a : AssistantAccumulator) : Option Message :=
  let toolCalls := a.toolCallOrder.filterMap
    (fun id => (a.toolCallsByID.find? (fun p => p.1 = id)).map (·.2))
  if a.text = [] && toolCalls = [] then none
  else some
    { role := .assistant
      toolCalls := toolCalls
      content := if ¬ a.text = [] then [{ type := .text, text := a.text }] else [] }

/-- `forwardProviderEvents`: forward each stream event until the first
terminal, accumulating the assistant message.  Returns the forwarded prefix,
the accumulator, and the terminal event (`none` when the channel closed with
no terminal, Go's `hasTerminal = false`). -/
def forwardProviderEvents :
    List Event → AssistantAccumulator → List Event × AssistantAccumulator × Option Event
  | [], acc => ([], acc, none)
  | ev :: rest, acc =>
    let acc := acc.consume ev
    if ev.type = EventType.done || ev.type = EventType.error then ([ev], acc, some ev)
    else
      let (evs, acc', t) := forwardProviderEvents rest acc
      (ev :: evs, acc', t)

/-- The agent loop's scripted environment: provider stream per `Stream` call
index, dequeue answers per call index, and the optional tool executor. -/
structure LoopCtx where
  provider : Nat → Except GoError (List Event)
  steer : Nat → List Message
  followUp : Nat → List Message
  execToolCall : Option (ToolCall → Except GoError Message)

/-- Call counters for the scripted hooks. -/
structure LoopSt where
  streamCalls : Nat := 0
  steerCalls : Nat := 0
  followUpCalls : Nat := 0
deriving DecidableEq, Repr

/-- One `dequeueMessages(hooks.dequeueSteeringMessages)` call. -/
def dequeueSteer (ctx : LoopCtx) (st : LoopSt) : List Message × LoopSt :=
  (ctx.steer st.steerCalls, { st with steerCalls := st.steerCalls + 1 })

/-- One `dequeueMessages(hooks.dequeueFollowUpMessages)` call. -/
def dequeueFollow (ctx : LoopCtx) (st : LoopSt) : List Message × LoopSt :=
  (ctx.followUp st.followUpCalls, { st with followUpCalls := st.followUpCalls + 1 })

/-- Output of the in-turn tool-execution loop. -/
structure ToolLoopOut where
  events : List Event
  executed : List ToolCall
  result : Except GoError (List Message × LoopSt × List Message)
deriving Repr

/-- Events and skipped-result messages synthesized for the remaining tool
calls once a steering message is detected (the inner `for _, remaining`
loop). -/
def skipRemainingCalls : List ToolCall → List Event × List Message
  | [] => ([], [])
  | r :: rs =>
    let skippedCall := cloneToolCall r
    let skippedResultMessage := skipToolCall skippedCall
    let (evs, msgs) := skipRemainingCalls rs
    ([{ type := .toolCallStart, toolCall := some skippedCall },
      { type := .toolResult, toolResult := skippedResultMessage.toolResult },
      { type := .toolCallEnd, toolCall := some skippedCall }] ++ evs,
      skippedResultMessage :: msgs)

/-- The `for i, toolCall := range assistantMessage.ToolCalls` loop of
`runLoop`: execute each call, forward its synthesized events, append its
result message, and after each execution poll the steering queue — if
non-empty, skip every remaining call and stop.  `executed` records exactly
the calls handed to `hooks.executeToolCall`. -/
def runToolCalls (ctx : LoopCtx) (fn : ToolCall → Except GoError Message) :
    LoopSt → List Message → List ToolCall → ToolLoopOut
  | st, msgs, [] => { events := [], executed := [], result := .ok (msgs, st, []) }
  | st, msgs, c :: rest =>
    let call := cloneToolCall c
    let startEv : Event := { type := .toolCallStart, toolCall := some call }
    match fn call with
    | .error e => { events := [startEv], executed := [call], result := .error e }
    | .ok toolResultMessage =>
      let msgs := msgs ++ [toolResultMessage]
      let resEvs : List Event :=
        match toolResultMessage.toolResult with
        | some tr => [{ type := .toolResult, toolResult := some tr }]
        | none => []
      let endEv : Event := { type := .toolCallEnd, toolCall := some call }
      let (steering, st) := dequeueSteer ctx st
      if steering.isEmpty then
        let out := runToolCalls ctx fn st msgs rest
        { events := [startEv] ++ resEvs ++ [endEv] ++ out.events
          executed := call :: out.executed
          result := out.result }
      else
        let (skipEvs, skipMsgs) := skipRemainingCalls rest
        { events := [startEv] ++ resEvs ++ [endEv] ++ skipEvs
          executed := [call]
          result := .ok (msgs ++ skipMsgs, st, steering) }

/-- Result of a `runLoop` execution: the events sent into the forwarder, the
`terminalForwarded` flag and error of the Go return, plus ghost observations:
the message list of each `provider.Stream` call, every call handed to the
tool executor, and the final state of the loop's request messages. -/
structure RunOut where
  events : List Event
  terminalForwarded : Bool
  err : Option GoError
  sentRequests : List (List Message)
  executed : List ToolCall
  finalMessages : List Message
deriving Repr

/-- `terminal.Done != nil && terminal.Done.Reason == llm.StopReasonToolUse`. -/
def doneReasonIsToolUse (e : Event) : Bool :=
  match e.done with
  | some d => d.reason = StopReason.toolUse
  | none => false

/-- The `for turn := 0; turn < maxTurns; turn++` body of `runLoop`. -/
def runTurns (ctx : LoopCtx) :
    Nat → LoopSt → List Message → List Message → RunOut
  | 0, _, msgs, _ =>
    { events := [], terminalForwarded := false, err := some .maxTurnsExceeded,
      sentRequests := [], executed := [], finalMessages := msgs }
  | fuel + 1, st, msgs, pending =>
    let sent := if pending.isEmpty then msgs else msgs ++ cloneMessages pending
    match ctx.provider st.streamCalls with
    | .error e =>
      { events := [], terminalForwarded := false, err := some e,
        sentRequests := [sent], executed := [], finalMessages := sent }
    | .ok stream =>
      let st := { st with streamCalls := st.streamCalls + 1 }
      let (fwd, acc, terminal?) := forwardProviderEvents stream {}
      match terminal? with
      | none =>
        { events := fwd, terminalForwarded := false,
          err := some (.msg "provider stream ended without terminal event"),
          sentRequests := [sent], executed := [], finalMessages := sent }
      | some terminal =>
        let assistantMessage := acc.buildMessage
        let msgs := match assistantMessage with
          | some am => sent ++ [am]
          | none => sent
        if terminal.type = EventType.error then
          { events := fwd, terminalForwarded := true, err := none,
            sentRequests := [sent], executed := [], finalMessages := msgs }
        else if doneReasonIsToolUse terminal then
          match ctx.execToolCall, assistantMessage with
          | some fn, some am =>
            if am.toolCalls.isEmpty then
              { events := fwd, terminalForwarded := true, err := none,
                sentRequests := [sent], executed := [], finalMessages := msgs }
            else
              let out := runToolCalls ctx fn st msgs am.toolCalls
              match out.result with
              | .error e =>
                { events := fwd ++ out.events, terminalForwarded := false, err := some e,
                  sentRequests := [sent], executed := out.executed, finalMessages := msgs }
              | .ok (msgs2, st2, pending2) =>
                let r := runTurns ctx fuel st2 msgs2 pending2
                { events := fwd ++ out.events ++ r.events
                  terminalForwarded := r.terminalForwarded
                  err := r.err
                  sentRequests := sent :: r.sentRequests
                  executed := out.executed ++ r.executed
                  finalMessages := r.finalMessages }
          | _, _ =>
            { events := fwd, terminalForwarded := true, err := none,
              sentRequests := [sent], executed := [], finalMessages := msgs }
        else
          let (steering, st) := dequeueSteer ctx st
          if ¬ steering.isEmpty then
            let r := runTurns ctx fuel st msgs steering
            { events := fwd ++ r.events, terminalForwarded := r.terminalForwarded,
              err := r.err, sentRequests := sent :: r.sentRequests,
              executed := r.executed, finalMessages := r.finalMessages }
          else
            let (followUp, st) := dequeueFollow ctx st
            if ¬ followUp.isEmpty then
              let r := runTurns ctx fuel st msgs followUp
              { events := fwd ++ r.events, terminalForwarded := r.terminalForwarded,
                err := r.err, sentRequests := sent :: r.sentRequests,
                executed := r.executed, finalMessages := r.finalMessages }
            else
              { events := fwd, terminalForwarded := true, err := none,
                sentRequests := [sent], executed := [], finalMessages := msgs }

/-- `runLoop`: normalize `maxTurns`, drain the initial steering/follow-up
message, then run the turns. -/
def runLoop (ctx : LoopCtx) (msgs : List Message) (maxTurns : Int) : RunOut :=
  let effective : Nat := if maxTurns ≤ 0 then 1 else maxTurns.toNat
  let st : LoopSt := {}
  let (p1, st) := dequeueSteer ctx st
  let (pending, st) := if p1.isEmpty then dequeueFollow ctx st else (p1, st)
  runTurns ctx effective st msgs pending

/-- The sequence of events `Agent.Run`'s goroutine sends into the forwarder:
the `runLoop` events, plus one final `error` event when `runLoop` failed
without having just forwarded a terminal (reason `aborted` for cancellation,
`error` otherwise). -/
def agentRunEvents (ctx : LoopCtx) (req : Request) (maxTurns : Int) : List Event :=
  let request := cloneRequest req
  let out := runLoop ctx request.messages maxTurns
  match out.err with
  | some e =>
    if out.terminalForwarded then out.events
    else
      out.events ++
        [{ type := .error,
           done := some { reason := if e.isCanceled then .aborted else .error },
           err := some e }]
  | none => out.events

end Gar

namespace Gar

/-! ## Request aliasing frame (`Agent.Run` clones the caller's request)

Go slices/maps are mutable references; `Run` deep-clones the incoming request
and the loop mutates only the clone.  The heap model makes that observable:
requests live in cells addressed by `Nat` references, `Run` allocates a fresh
cell for its clone and every write of the loop targets that cell. -/

abbrev RequestHeap := List (Nat × Request)

def heapLookup : RequestHeap → Nat → Option Request
  | [], _ => none
  | p :: t, r => if p.1 = r then some p.2 else heapLookup t r

def heapSet : RequestHeap → Nat → Request → RequestHeap
  | [], _, _ => []
  | p :: t, r, v => (if p.1 = r then (r, v) else p) :: heapSet t r v

def freshRef (h : RequestHeap) : Nat :=
  (h.map (·.1)).foldr max 0 + 1

/-- `Agent.Run` over the request heap: read the caller's cell, allocate a
fresh cell holding `cloneRequest`, run the loop (whose request writes all
target the fresh cell), and store the loop's final request state there. -/
def agentRunHeap (ctx : LoopCtx) (h : RequestHeap) (caller : Nat) (maxTurns : Int) :
    RequestHeap :=
  match heapLookup h caller with
  | none => h
  | some req =>
    let r := freshRef h
    let cloned := cloneRequest req
    let h1 := h ++ [(r, cloned)]
    let out := runLoop ctx cloned.messages maxTurns
    heapSet h1 r { cloned with messages := out.finalMessages }

end Gar

namespace Gar

/-! ## Session engine (`internal/coding-agent`'s `session` package:
`AgentSession`, `appendEntryLocked`, `branchEntriesLocked`,
`rebuildConversationLocked`, `compactLocked`) and the session store
(`internal/session`).

`sessionstore.Entry.Data` is raw JSON written and read only through fixed Go
structs; it is modelled as the closed sum `EntryData` (marshal/unmarshal of
the same struct round-trips, unmarshalling a payload without the requested
field yields the zero value, exactly as `encoding/json` behaves for these
payloads). -/

/-- The decoded forms `Entry.Data` takes in this codebase. -/
inductive EntryData where
  | empty
  | toolState (isError : Bool)
  | compaction (firstKeptEntryID : GoStr) (droppedMessages : Nat) (instructions : Option GoStr)
  | meta
deriving DecidableEq, Repr

/-- `sessionstore.Entry`. -/
structure Entry where
  id : GoStr := []
  parentID : GoStr := []
  type : GoStr := []
  content : GoStr := []
  name : GoStr := []
  toolCallID : GoStr := []
  params : GoStr := []
  data : EntryData := .empty
  usage : GoStr := []
  ts : Int := 0
deriving DecidableEq, Repr

/-- `compactionFirstKeptID`: decode `first_kept_entry_id` from the entry's
data (zero/absent field decodes to the empty string). -/
def compactionFirstKeptID (entry : Entry) : GoStr :=
  match entry.data with
  | .compaction fk _ _ => trimGo fk
  | _ => []

/-- `userTextMessage`. -/
def userTextMessage (text : GoStr) : Message :=
  { role := .user, content := [{ type := .text, text := text }] }

/-- `entryToMessage`. -/
def entryToMessage (entry : Entry) : Option Message :=
  if entry.type = str "user" then
    let text := trimGo entry.content
    if text = [] then none else some (userTextMessage text)
  else if entry.type = str "assistant" then
    let text := trimGo entry.content
    if text = [] then none
    else some { role := .assistant, content := [{ type := .text, text := text }] }
  else if entry.type = str "tool_result" then
    let isError := match entry.data with
      | .toolState b => b
      | _ => false
    some
      { role := .tool
        toolResult := some
          { toolCallID := entry.toolCallID
            toolName := entry.name
            content := entry.content
            isError := isError } }
  else none

/-- `isMessageEntry`. -/
def isMessageEntry (entry : Entry) : Bool :=
  entry.type = str "user" || entry.type = str "assistant" || entry.type = str "tool_result"

/-- `countConversationMessages`. -/
def countConversationMessages (messages : List Message) : Nat :=
  messages.countP (fun m => m.role = Role.user || m.role = Role.assistant || m.role = Role.tool)

/-- `truncateRunes` (runes coincide with list elements in this model). -/
def truncateRunes (text : GoStr) (max : Int) : GoStr :=
  if max ≤ 0 then []
  else if (text.length : Int) ≤ max then text
  else text.take max.toNat ++ str "..."

def compactionSummaryMaxLines : Nat := 40

def compactionSummaryMaxChars : Nat := 6000

/-- The highlight-collection loop of `buildCompactionSummary` (stops after
`compactionSummaryMaxLines` collected lines; entries with no usable text are
skipped without counting). -/
def summaryLines : List Entry → Nat → List GoStr
  | [], _ => []
  | e :: rest, count =>
    if compactionSummaryMaxLines ≤ count then []
    else
      let role := e.type
      let text := trimGo e.content
      let role := if e.type = str "tool_result" && ¬ trimGo e.name = [] then
          str "tool:" ++ trimGo e.name
        else role
      let text := if e.type = str "tool_result" && text = [] then
          str "(empty tool result)"
        else text
      if text = [] then summaryLines rest count
      else (str "- " ++ role ++ str ": " ++ truncateRunes text 180) :: summaryLines rest (count + 1)

/-- `buildCompactionSummary`. -/
def buildCompactionSummary (entries : List Entry) (instructions : GoStr) : GoStr :=
  let header :=
    [str "[Context Compact Summary]"] ++
      (if ¬ trimGo instructions = [] then [str "Instructions: " ++ trimGo instructions] else []) ++
      [str "Earlier conversation highlights:"]
  let highlights := summaryLines entries 0
  let lines := header ++ (if highlights.isEmpty then [str "- (no textual messages)"] else highlights)
  let summary := joinGo (str "\n") lines
  if compactionSummaryMaxChars < summary.length then summary.take compactionSummaryMaxChars
  else summary

/-- `session.CompactionResult`. -/
structure CompactionResult where
  summary : GoStr := []
  droppedMessages : Nat := 0
  firstKeptEntry : GoStr := []
deriving DecidableEq, Repr

/-- In-memory `AgentSession` state touched by the embedded operations
(`byID` is the Go map, modelled as a cons-shadowed association list). -/
structure SessState where
  entries : List Entry := []
  byID : List (GoStr × Entry) := []
  leafID : GoStr := []
  nextEntryID : Nat := 0
  conversation : List Message := []
  compactionKeep : Int := 0
deriving DecidableEq, Repr

/-- Go map lookup on the `byID` index. -/
def entryLookup (byID : List (GoStr × Entry)) (k : GoStr) : Option Entry :=
  (byID.find? (fun p => p.1 = k)).map (·.2)

/-- `assignedEntry`: the field assignments `appendEntryLocked` performs before
persisting (`id`, `parent_id`, and `ts` when unset). -/
def assignedEntry (now : Int) (s : SessState) (entry : Entry) : Entry :=
  { entry with
    id := zeroPad6 s.nextEntryID
    parentID := s.leafID
    ts := if entry.ts ≤ 0 then now else entry.ts }

/-- `appendEntryLocked`.  `storeRes` is the store's answer for this append
(`none` covers both a successful `Store.Append` and a nil store); the store
call happens before any in-memory mutation, so on store failure the call
fails and the state is returned unchanged. -/
def appendEntryLocked (now : Int) (storeRes : Option GoError) (s : SessState)
    (entry : Entry) : Option GoError × SessState :=
  let entry := assignedEntry now s entry
  match storeRes with
  | some e => (some e, s)
  | none =>
    (none,
      { s with
        entries := s.entries ++ [entry]
        byID := (entry.id, entry) :: s.byID
        leafID := entry.id
        nextEntryID := s.nextEntryID + 1 })

/-- The `for current != ""` walk of `branchEntriesLocked` (leaf-to-root
order, cycle-guarded by the visited set); fuelled, one unit per iteration. -/
def walkBranch (byID : List (GoStr × Entry)) : Nat → List GoStr → GoStr → List Entry
  | 0, _, _ => []
  | fuel + 1, visited, current =>
    if current = [] then []
    else if current ∈ visited then []
    else
      match entryLookup byID current with
      | none => []
      | some entry => entry :: walkBranch byID fuel (current :: visited) (trimGo entry.parentID)

/-- `branchEntriesLocked`: the id-chain from `leafID` up to a root, returned
root-first. -/
def branchEntriesLocked (s : SessState) (leafID : GoStr) : List Entry :=
  let leaf := trimGo leafID
  if leaf = [] then []
  else (walkBranch s.byID (s.byID.length + 1) [] leaf).reverse

/-- The latest-compaction scan at the top of `rebuildConversationLocked`:
index of the last `compaction` entry on the branch, its decoded
`first_kept_entry_id`, and its trimmed summary. -/
def scanCompaction (branch : List Entry) : Option (Nat × GoStr × GoStr) :=
  branch.enum.foldl
    (fun best p =>
      if p.2.type = str "compaction" then some (p.1, compactionFirstKeptID p.2, trimGo p.2.content)
      else best)
    none

/-- `rebuildConversationLocked`. -/
def rebuildConversationLocked (s : SessState) : List Message :=
  let branch := branchEntriesLocked s s.leafID
  if branch.isEmpty then []
  else
    match scanCompaction branch with
    | none => branch.filterMap entryToMessage
    | some (c, firstKeptID, compactionSummary) =>
      let head : List Message :=
        if ¬ compactionSummary = [] then
          [{ role := .assistant, content := [{ type := .text, text := compactionSummary }] }]
        else []
      let start :=
        if ¬ firstKeptID = [] then
          match (branch.take c).findIdx? (fun e => e.id = firstKeptID) with
          | some i => i
          | none => c
        else c
      head ++ ((branch.drop start).take (c - start)).filterMap entryToMessage ++
        (branch.drop (c + 1)).filterMap entryToMessage

/-- `compactLocked` (store-free path: the store is nil or succeeds, as in the
manual `Compact` flow; `threshold = 0` disables the auto-compaction gate). -/
def compactLocked (now : Int) (s : SessState) (threshold : Int) (keepMessages : Int)
    (instructions : GoStr) : Except GoError CompactionResult × SessState :=
  if threshold > 0 && (countConversationMessages s.conversation : Int) ≤ threshold then
    (.error .compactionNotNeeded, s)
  else
    let keepMessages := if keepMessages ≤ 0 then s.compactionKeep else keepMessages
    let branch := branchEntriesLocked s s.leafID
    let messageEntries := branch.filter isMessageEntry
    if (messageEntries.length : Int) ≤ keepMessages then (.error .compactionNotNeeded, s)
    else
      let keepN := keepMessages.toNat
      let dropped := messageEntries.take (messageEntries.length - keepN)
      let kept := messageEntries.drop (messageEntries.length - keepN)
      let firstKeptID := (kept.headD {}).id
      let summary := buildCompactionSummary dropped instructions
      let details : EntryData :=
        .compaction firstKeptID dropped.length
          (if ¬ trimGo instructions = [] then some (trimGo instructions) else none)
      match appendEntryLocked now none s
          { type := str "compaction", content := summary, data := details } with
      | (some e, s1) => (.error e, s1)
      | (none, s1) =>
        let s2 := { s1 with conversation := rebuildConversationLocked s1 }
        (.ok { summary := summary
               droppedMessages := dropped.length
               firstKeptEntry := firstKeptID }, s2)

/-- The `messageEntries` local of `compactLocked`. -/
def compactMessageEntries (s : SessState) : List Entry :=
  (branchEntriesLocked s s.leafID).filter isMessageEntry

/-- The `len(messageEntries) - keepN` drop count of `compactLocked`
(for a positive `keepMessages`). -/
def compactDropCount (s : SessState) (keep : Int) : Nat :=
  (compactMessageEntries s).length - keep.toNat

/-- The `dropped` local of `compactLocked`. -/
def compactDropped (s : SessState) (keep : Int) : List Entry :=
  (compactMessageEntries s).take (compactDropCount s keep)

/-- The `kept` local of `compactLocked`. -/
def compactKept (s : SessState) (keep : Int) : List Entry :=
  (compactMessageEntries s).drop (compactDropCount s keep)

/-- The compaction entry `compactLocked` hands to `appendEntryLocked`
(before id/parent/ts assignment). -/
def compactEntryRaw (s : SessState) (keep : Int) (instr : GoStr) : Entry :=
  { type := str "compaction"
    content := buildCompactionSummary (compactDropped s keep) instr
    data := .compaction ((compactKept s keep).headD {}).id
      (compactDropped s keep).length
      (if ¬ trimGo instr = [] then some (trimGo instr) else none) }

/-- The compaction entry as persisted (after `appendEntryLocked`'s
assignments). -/
def compactEntry (now : Int) (s : SessState) (keep : Int) (instr : GoStr) : Entry :=
  assignedEntry now s (compactEntryRaw s keep instr)

/-- The in-memory state right after `compactLocked`'s append, before the
conversation rebuild. -/
def compactState (now : Int) (s : SessState) (keep : Int) (instr : GoStr) : SessState :=
  (appendEntryLocked now none s (compactEntryRaw s keep instr)).2

end Gar

namespace Gar

/-! ## Workspace path confinement (`internal/agent/tool/workspace.go`)

`path/filepath`'s lexical operations (`Clean`, `Join`, `Dir`, `Base`, `Rel`
for the slash-separated Unix paths this code runs on) are embedded as
executable functions; the filesystem-dependent calls (`os.Getwd`,
`os.UserHomeDir`, `filepath.EvalSymlinks`) are oracles supplied through an
environment record. -/

/-- Split on `'/'`, keeping empty components (like `strings.Split`). -/
def splitSlash (s : GoStr) : List GoStr :=
  s.foldr
    (fun ch acc =>
      if ch = '/' then [] :: acc
      else match acc with
        | h :: t => (ch :: h) :: t
        | [] => [[ch]])
    [[]]

/-- The component-stack step of `filepath.Clean` (stack kept reversed). -/
def cleanPush (rooted : Bool) (stack : List GoStr) (comp : GoStr) : List GoStr :=
  if comp = [] || comp = str "." then stack
  else if comp = str ".." then
    match stack with
    | top :: rest => if top = str ".." then comp :: stack else rest
    | [] => if rooted then [] else [comp]
  else comp :: stack

/-- `filepath.Clean` for slash-separated paths. -/
def pathClean (p : GoStr) : GoStr :=
  if p = [] then str "."
  else
    let rooted := p.head? = some '/'
    let stack := (splitSlash p).foldl (cleanPush rooted) []
    let body := joinGo (str "/") stack.reverse
    if rooted then '/' :: body
    else if body = [] then str "." else body

/-- `filepath.IsAbs` (Unix). -/
def pathIsAbs (p : GoStr) : Bool := p.head? = some '/'

/-- `filepath.Join` of two elements (empty elements dropped, then cleaned). -/
def pathJoin (a b : GoStr) : GoStr :=
  if a = [] && b = [] then []
  else if a = [] then pathClean b
  else if b = [] then pathClean a
  else pathClean (a ++ '/' :: b)

/-- `filepath.Dir`. -/
def pathDir (p : GoStr) : GoStr :=
  let keep := p.length - (p.reverse.takeWhile (fun c => ¬ c = '/')).length
  pathClean (p.take keep)

/-- `filepath.Base`. -/
def pathBase (p : GoStr) : GoStr :=
  if p = [] then str "."
  else
    let q := (p.reverse.dropWhile (fun c => c = '/')).reverse
    if q = [] then str "/"
    else (q.reverse.takeWhile (fun c => ¬ c = '/')).reverse

/-- Length of the common component prefix. -/
def commonLen : List GoStr → List GoStr → Nat
  | a :: as', b :: bs => if a = b then 1 + commonLen as' bs else 0
  | _, _ => 0

/-- `filepath.Rel` (Unix, no volumes): `none` models the error return. -/
def pathRel (base target : GoStr) : Option GoStr :=
  let b := pathClean base
  let t := pathClean target
  if b = t then some (str ".")
  else if ¬ pathIsAbs b = pathIsAbs t then none
  else
    let bl := if b = str "." then [] else splitSlash (if pathIsAbs b then b.drop 1 else b)
    let tl := splitSlash (if pathIsAbs t then t.drop 1 else t)
    let n := commonLen bl tl
    let brem := bl.drop n
    let trem := tl.drop n
    match brem with
    | [] => some (joinGo (str "/") trem)
    | first :: _ =>
      if first = str ".." then none
      else some (joinGo (str "/") (List.replicate brem.length (str "..") ++ trem))

/-- `isWithinWorkspace`: `filepath.Rel(root, target)` succeeds and does not
climb out (`.` is inside, `..` and `../…` are outside). -/
def isWithinWorkspace (root target : GoStr) : Bool :=
  match pathRel root target with
  | none => false
  | some rel =>
    if rel = str "." then true
    else if rel = str ".." then false
    else ¬ (str "../").isPrefixOf rel

/-- Filesystem oracles for the confinement pipeline. -/
structure FSEnv where
  wd : GoStr
  home : Option GoStr
  evalSymlinks : GoStr → Except GoError GoStr
  notExist : GoError → Bool

/-- `filepath.Abs`. -/
def pathAbs (env : FSEnv) (p : GoStr) : GoStr :=
  if pathIsAbs p then pathClean p else pathJoin env.wd p

/-- `normalizeWorkspaceRoot`. -/
def normalizeWorkspaceRoot (env : FSEnv) (root : GoStr) : Except GoError GoStr :=
  let trimmed := trimGo root
  let trimmed := if trimmed = [] then env.wd else trimmed
  let abs := pathAbs env trimmed
  match env.evalSymlinks abs with
  | .error e => .error (.wrap "resolve workspace symlinks" e)
  | .ok resolved => .ok (pathClean resolved)

/-- The exotic Unicode spaces `normalizeToolPathInput` folds to a plain
space. -/
def isExoticSpace (c : Char) : Bool :=
  [0xA0, 0x2000, 0x2001, 0x2002, 0x2003, 0x2004, 0x2005, 0x2006, 0x2007, 0x2008,
    0x2009, 0x200A, 0x202F, 0x205F, 0x3000].contains c.toNat

/-- `normalizeToolPathInput`: trim, fold exotic spaces, strip one leading `@`,
expand `~` / `~/` against the home directory. -/
def normalizeToolPathInput (env : FSEnv) (path : GoStr) : GoStr :=
  let trimmed := trimGo path
  let normalizedSpaces := trimmed.map (fun r => if isExoticSpace r then ' ' else r)
  let normalizedSpaces :=
    if normalizedSpaces.head? = some '@' then normalizedSpaces.drop 1 else normalizedSpaces
  if normalizedSpaces = str "~" then
    match env.home with
    | some home => if ¬ trimGo home = [] then home else normalizedSpaces
    | none => normalizedSpaces
  else if (str "~/").isPrefixOf normalizedSpaces then
    match env.home with
    | some home =>
      if ¬ trimGo home = [] then pathJoin home (normalizedSpaces.drop 2)
      else normalizedSpaces
    | none => normalizedSpaces
  else normalizedSpaces

/-- The `allowCreate` loop of `resolvePathWithOptionalMissing`: walk up to the
deepest existing ancestor, then re-attach the missing suffix. -/
def resolveMissingLoop (env : FSEnv) : Nat → List GoStr → GoStr → Except GoError GoStr
  | 0, _, _ => .error (.msg "resolve loop fuel exhausted")
  | fuel + 1, missing, probe =>
    match env.evalSymlinks probe with
    | .ok resolved =>
      .ok (pathClean (missing.reverse.foldl pathJoin resolved))
    | .error e =>
      if ¬ env.notExist e then .error e
      else
        let parent := pathDir probe
        if parent = probe then .error e
        else resolveMissingLoop env fuel (missing ++ [pathBase probe]) parent

/-- `resolvePathWithOptionalMissing`. -/
def resolvePathWithOptionalMissing (env : FSEnv) (path : GoStr) (allowCreate : Bool) :
    Except GoError GoStr :=
  if ¬ allowCreate then
    match env.evalSymlinks path with
    | .error e => .error e
    | .ok resolved => .ok (pathClean resolved)
  else resolveMissingLoop env (path.length + 2) [] (pathClean path)

/-- `resolveWorkspacePath`: normalize the input, resolve the workspace root,
absolutize, canonicalize, and reject targets that escape the root. -/
def resolveWorkspacePath (env : FSEnv) (workspaceRoot inputPath : GoStr)
    (allowCreate : Bool) : Except GoError GoStr :=
  let rawPath := normalizeToolPathInput env inputPath
  if trimGo rawPath = [] then .error (.msg "path is required")
  else
    match normalizeWorkspaceRoot env workspaceRoot with
    | .error e => .error e
    | .ok root =>
      let candidate := if pathIsAbs rawPath then rawPath else pathJoin root rawPath
      let candidate := pathClean candidate
      match resolvePathWithOptionalMissing env candidate allowCreate with
      | .error e => .error (.wrap "resolve path" e)
      | .ok resolved =>
        if ¬ isWithinWorkspace root resolved then
          .error (.wrap "path is outside workspace" .pathOutsideWorkspace)
        else .ok resolved

/-- `errors.Is(err, ErrPathOutsideWorkspace)`. -/
def GoError.isPathOutsideWorkspace : GoError → Bool
  | .pathOutsideWorkspace => true
  | .wrap _ e => e.isPathOutsideWorkspace
  | .retryable e => e.isPathOutsideWorkspace
  | _ => false

end Gar

namespace Gar

/-! ## Statement helpers and concrete scenarios used by the theorems -/

/-- Visible output in the sense of the retry policy: a text delta, a
tool-call delta, or a tool-call start. -/
def Event.isVisibleOutput (e : Event) : Bool :=
  e.type = EventType.textDelta || e.type = EventType.toolCallDelta ||
    e.type = EventType.toolCallStart

/-- The message a successful `executeToolCall` hook returns for a call
(dummy fallback when the hook fails; only used under a success hypothesis). -/
def execMsg (fn : ToolCall → Except GoError Message) (t : ToolCall) : Message :=
  match fn (cloneToolCall t) with
  | .ok m => m
  | .error _ => { role := .tool }

/-- The event triple `runLoop` synthesizes around one executed tool call. -/
def execCallEvents (fn : ToolCall → Except GoError Message) (t : ToolCall) : List Event :=
  let call := cloneToolCall t
  [{ type := .toolCallStart, toolCall := some call }] ++
    (match (execMsg fn t).toolResult with
      | some tr => [{ type := .toolResult, toolResult := some tr }]
      | none => []) ++
    [{ type := .toolCallEnd, toolCall := some call }]

/-- Scenario for C1: every provider turn ends `done(stop)`; one steering
message is queued when the loop polls between turns (call index 1). -/
def c1ctx : LoopCtx :=
  { provider := fun _ => .ok [{ type := .done, done := some { reason := .stop } }]
    steer := fun k => if k = 1 then [userTextMessage (str "hi")] else []
    followUp := fun _ => []
    execToolCall := none }

/-- Scenario for C3: two tool calls in one turn, steering arrives after the
first one executes. -/
def c3call1 : ToolCall := { id := str "call-1", name := str "t", arguments := str "\x7b\x7d" }

def c3call2 : ToolCall := { id := str "call-2", name := str "t", arguments := str "\x7b\x7d" }

def c3fn : ToolCall → Except GoError Message := fun call =>
  .ok { role := .tool
        toolResult := some
          { toolCallID := call.id, toolName := call.name, content := str "ok", isError := false } }

def c3ctx : LoopCtx :=
  { provider := fun _ => .ok []
    steer := fun k => if k = 0 then [userTextMessage (str "interrupt")] else []
    followUp := fun _ => []
    execToolCall := some c3fn }

/-- Scenario entries for C4: three chained non-empty `user` entries. -/
def c4UserEntry (i : Nat) (parent : GoStr) : Entry :=
  { id := zeroPad6 i, parentID := parent, type := str "user", content := str "u", ts := 1 }

def c4e1 : Entry := c4UserEntry 1 []

def c4e2 : Entry := c4UserEntry 2 (zeroPad6 1)

def c4e3 : Entry := c4UserEntry 3 (zeroPad6 2)

/-- Scenario state for C4 (leaf at the third entry, as after three submits). -/
def c4s : SessState :=
  { entries := [c4e1, c4e2, c4e3]
    byID := [(c4e3.id, c4e3), (c4e2.id, c4e2), (c4e1.id, c4e1)]
    leafID := zeroPad6 3
    nextEntryID := 4
    conversation := []
    compactionKeep := 24 }

/-- Scenario for C2 / S4: the first attempt emits a text delta and then the
transport aborts retryably. -/
def c2scripts : Nat → StreamScript := fun _ =>
  { events := [.contentBlockDelta 0 (.text (str "partial"))]
    streamErr := some (true, "transport aborted") }

/-- Scenario scripts for C6: attempt 0 fails retryably before any output,
attempt 1 completes. -/
def c6scripts : Nat → StreamScript := fun k =>
  if k = 0 then { events := [], streamErr := some (true, "http 429") }
  else { events := [.messageStop] }

/-- Scenario policy for C6: one retry, base = max = 10 ns (already in merged
form: positive, `base ≤ max`). -/
def c6pol : RetryPolicy := { maxRetries := 1, baseDelay := 10, maxDelay := 10 }

/-- Scenario SDK script for C7: a `tool_use` block whose reassembled
arguments are the JSON array `[1]` — valid JSON but not an object. -/
def c7events : List SDKEvent :=
  [.contentBlockStart 0 (.toolUse (str "toolu_1") (str "Read") (.ok (str "\x7b\x7d"))),
   .contentBlockDelta 0 (.inputJSON (str "[1]")),
   .contentBlockStop 0]

/-- A state mid-stream holding an accumulator whose buffer is a JSON object,
used to witness the amended C7. -/
def c7okState : StreamState :=
  { reason := .stop
    toolAccumulators := [(0, { id := str "toolu_2", name := str "Read", buf := str "\x7b\"a\":1\x7d" })] }

/-- Concrete filesystem oracles for the C8 witness: no symlinks, everything
exists. -/
def c8env : FSEnv :=
  { wd := str "/w"
    home := some (str "/home/u")
    evalSymlinks := fun p => .ok p
    notExist := fun _ => false }

/-- Concrete heap for the C10 witness. -/
def c10req : Request :=
  { model := str "m", messages := [userTextMessage (str "hello")],
    metadata := [(str "user_id", str "u1")], temperature := some 1 }

def c10heap : RequestHeap := [(7, c10req)]

end Gar

namespace Gar

/-! ## Theorems -/

/-- C5: every tool-result content string of at most 10 000 bytes is returned
unchanged by `truncateToolResultContent`; longer contents become exactly the
first 4 000 bytes, the mark `"\n...[truncated]...\n"`, and the last 4 000
bytes; consequently the returned content never exceeds 10 000 bytes. -/
theorem c5_truncation_law (content : GoStr) :
    (content.length ≤ 10000 → truncateToolResultContent content = content) ∧
    (10000 < content.length →
      truncateToolResultContent content =
        content.take 4000 ++ toolResultTruncateMark ++
          content.drop (content.length - 4000)) ∧
    (truncateToolResultContent content).length ≤ 10000 := by
  refine ⟨fun h => ?_, fun h => ?_, ?_⟩
  · simp [truncateToolResultContent, maxToolResultContentLen, h]
  · rw [truncateToolResultContent, if_neg (by simp [maxToolResultContentLen]; omega)]
    rfl
  · by_cases h : content.length ≤ maxToolResultContentLen
    · rw [truncateToolResultContent, if_pos h]
      simpa [maxToolResultContentLen] using h
    · rw [truncateToolResultContent, if_neg h]
      have hm : toolResultTruncateMark.length = 19 := by decide
      simp only [List.length_append, List.length_take, List.length_drop, hm,
        toolResultHeadLen, toolResultTailLen, maxToolResultContentLen] at *
      omega

/-- C5 witness: the truncation cap evaluated at a concrete content. -/
theorem c5_witness : (truncateToolResultContent (str "abc")).length ≤ 10000 :=
  (c5_truncation_law (str "abc")).2.2

/-- C9: `appendEntry` assigns `id = zero-pad-6(next_id)`,
`parent_id = current leaf`, sets `ts` when it is zero (keeps a positive
`ts`), and only on store success appends the entry, indexes it, advances the
leaf and the next id; a store failure is returned to the caller with the
in-memory state unchanged. -/
theorem c9_append_entry (now : Int) (storeRes : Option GoError) (s : SessState)
    (entry : Entry) :
    (appendEntryLocked now storeRes s entry).1 = storeRes ∧
    (appendEntryLocked now storeRes s entry).2 =
      (match storeRes with
       | some _ => s
       | none =>
         { s with
           entries := s.entries ++ [assignedEntry now s entry]
           byID := ((assignedEntry now s entry).id, assignedEntry now s entry) :: s.byID
           leafID := (assignedEntry now s entry).id
           nextEntryID := s.nextEntryID + 1 }) ∧
    (assignedEntry now s entry).id = zeroPad6 s.nextEntryID ∧
    (assignedEntry now s entry).parentID = s.leafID ∧
    (entry.ts = 0 → (assignedEntry now s entry).ts = now) ∧
    (0 < entry.ts → (assignedEntry now s entry).ts = entry.ts) := by
  refine ⟨?_, ?_, rfl, rfl, fun h => ?_, fun h => ?_⟩
  · cases storeRes <;> rfl
  · cases storeRes <;> rfl
  · simp [assignedEntry, h]
  · simp [assignedEntry, show ¬ entry.ts ≤ 0 by omega]

/-- C9 witness: a store failure surfaces to the caller and leaves the state
untouched, at a concrete instance. -/
theorem c9_witness :
    (appendEntryLocked 5 (some (.msg "disk full")) c4s c4e1).2 = c4s :=
  ((c9_append_entry 5 (some (.msg "disk full")) c4s c4e1).2.1).trans rfl

/-- C1 counterexample: a run in which every turn ends `done(stop)` and one
steering message is queued between turns forwards TWO terminal events on its
output (the first turn's `done` and the final turn's `done`), refuting
"exactly one terminal event is emitted". -/
theorem c1_counterexample :
    ((agentRunEvents c1ctx { messages := [] } 50).countP (fun e => e.isTerminal)) = 2 ∧
    ¬ ((agentRunEvents c1ctx { messages := [] } 50).countP (fun e => e.isTerminal)) = 1 := by
  constructor <;> decide

/-- C4 counterexample: on a branch of three user entries, `Compact(keep=2)`
succeeds, and immediately re-running `Compact(keep=2)` on the resulting
state succeeds AGAIN (the `compaction` entry is not a message entry, so the
branch still holds three message entries) instead of failing with
`CompactionNotNeeded`. -/
theorem c4_counterexample :
    (compactLocked 100 c4s 0 2 []).1.isOk = true ∧
    (compactLocked 101 (compactLocked 100 c4s 0 2 []).2 0 2 []).1.isOk = true ∧
    ¬ (compactLocked 101 (compactLocked 100 c4s 0 2 []).2 0 2 []).1 =
        .error GoError.compactionNotNeeded := by
  refine ⟨by decide, by decide, fun h => ?_⟩
  have h2 : (compactLocked 101 (compactLocked 100 c4s 0 2 []).2 0 2 []).1.isOk = true := by
    decide
  rw [h] at h2
  exact absurd h2 (by decide)

/-- C6 counterexample: with the merged policy `max_retries = 1`,
`base = max = 10` and a legal jitter draw of `11/10 ∈ [0.8, 1.2)`, one
retryable failure before any output leads to a single backoff sleep of 11,
which already exceeds `max_retries · max_delay = 10`; the attempts bound
itself holds (2 attempts). -/
theorem c6_counterexample :
    ¬ ((streamWithRetryRun c6scripts (fun _ => (11, 10)) c6pol).sleeps.sum ≤
        c6pol.maxRetries * c6pol.maxDelay) ∧
    4 * 10 ≤ 5 * 11 ∧ 5 * 11 < 6 * 10 ∧
    (streamWithRetryRun c6scripts (fun _ => (11, 10)) c6pol).sleeps.sum = 11 ∧
    (streamWithRetryRun c6scripts (fun _ => (11, 10)) c6pol).attemptEvents.length = 2 := by
  refine ⟨by decide, by norm_num, by norm_num, by decide, by decide⟩

/-- C7 counterexample: a `tool_use` block whose chunked arguments reassemble
to the JSON array `[1]` — valid JSON but not a JSON object — still emits
`tool_call_end` with arguments `[1]` and no protocol error, refuting "the
buffer must parse as a JSON object or the stream fails". -/
theorem c7_counterexample :
    (processSDKEvents c7events { reason := .stop }).2.2 = none ∧
    (processSDKEvents c7events { reason := .stop }).1.map (fun e => e.type) =
      [EventType.contentBlockStart, EventType.toolCallStart, EventType.toolCallDelta,
        EventType.toolCallEnd] ∧
    ((processSDKEvents c7events { reason := .stop }).1.getLast?.bind
        (fun e => e.toolCall)).map (fun c => c.arguments) = some (str "[1]") ∧
    jsonValid (str "[1]") = true ∧
    jsonIsObject (str "[1]") = false := by
  refine ⟨by decide, by decide, by decide, by decide, by decide⟩

theorem cloneToolCall_eq (c : ToolCall) : cloneToolCall c = c := rfl

theorem cloneToolCalls_eq (l : List ToolCall) : cloneToolCalls l = l := by
  have h : cloneToolCall = id := funext fun c => rfl
  simp [cloneToolCalls, h]

theorem cloneMessage_eq (m : Message) : cloneMessage m = m := by
  cases m
  simp [cloneMessage, cloneToolCalls_eq]

theorem cloneMessages_eq (l : List Message) : cloneMessages l = l := by
  have h : cloneMessage = id := funext fun m => cloneMessage_eq m
  simp [cloneMessages, h]

theorem cloneRequest_eq (r : Request) : cloneRequest r = r := by
  cases r with
  | mk model system messages tools maxTokens temperature metadata retry =>
    simp [cloneRequest, cloneMessages_eq, cloneTools, cloneMetadata]
    cases temperature <;> simp

theorem le_foldr_max (l : List Nat) (a : Nat) (h : a ∈ l) : a ≤ l.foldr max 0 := by
  induction l with
  | nil => cases h
  | cons b t ih =>
    rcases List.mem_cons.mp h with rfl | h'
    · exact le_max_left _ _
    · exact le_trans (ih h') (le_max_right _ _)

theorem heapLookup_mem_keys (h : RequestHeap) (r : Nat) (v : Request)
    (hl : heapLookup h r = some v) : r ∈ h.map Prod.fst := by
  induction h with
  | nil => cases hl
  | cons p t ih =>
    by_cases hp : p.1 = r
    · simp only [List.map_cons, List.mem_cons]
      exact Or.inl hp.symm
    · simp only [heapLookup, if_neg hp] at hl
      simp only [List.map_cons, List.mem_cons]
      exact Or.inr (ih hl)

theorem mem_keys_lt_freshRef (h : RequestHeap) (k : Nat) (hk : k ∈ h.map Prod.fst) :
    k < freshRef h :=
  Nat.lt_succ_of_le (le_foldr_max _ _ hk)

theorem heapLookup_append_of_some (h t : RequestHeap) (r : Nat) (v : Request)
    (hl : heapLookup h r = some v) : heapLookup (h ++ t) r = some v := by
  induction h with
  | nil => cases hl
  | cons p h' ih =>
    by_cases hp : p.1 = r
    · simp only [heapLookup, if_pos hp] at hl ⊢
      exact hl
    · simp only [heapLookup, if_neg hp] at hl ⊢
      exact ih hl

theorem heapLookup_set_ne (h : RequestHeap) (r x : Nat) (v : Request) (hne : x ≠ r) :
    heapLookup (heapSet h r v) x = heapLookup h x := by
  induction h with
  | nil => rfl
  | cons p h' ih =>
    by_cases hp : p.1 = r
    · have hrx : ¬ (r = x) := fun hh => hne hh.symm
      have hpx : ¬ (p.1 = x) := by rw [hp]; exact hrx
      simp only [heapSet, heapLookup, if_pos hp, if_neg hrx, if_neg hpx]
      exact ih
    · by_cases hx : p.1 = x
      · simp only [heapSet, heapLookup, if_neg hp, if_pos hx]
      · simp only [heapSet, heapLookup, if_neg hp, if_neg hx]
        exact ih

/-- C10: `Agent.Run` deep-clones the caller's request into a fresh heap cell
and the loop mutates only that cell, so after the run the caller's request
cell still holds the original value; moreover the clone is value-identical
to the original (messages, tools, metadata, temperature all copied). -/
theorem c10_run_preserves_caller_request (ctx : LoopCtx) (h : RequestHeap)
    (caller : Nat) (maxTurns : Int) (req : Request)
    (Hc : heapLookup h caller = some req) :
    heapLookup (agentRunHeap ctx h caller maxTurns) caller = some req ∧
    cloneRequest req = req := by
  refine ⟨?_, cloneRequest_eq req⟩
  unfold agentRunHeap
  rw [Hc]
  have hne : caller ≠ freshRef h :=
    Nat.ne_of_lt (mem_keys_lt_freshRef h caller (heapLookup_mem_keys h caller req Hc))
  rw [heapLookup_set_ne _ _ _ _ hne]
  exact heapLookup_append_of_some h _ caller req Hc

/-- C10 witness: a concrete one-cell heap is untouched by a run. -/
theorem c10_witness :
    heapLookup (agentRunHeap c1ctx c10heap 7 1) 7 = some c10req :=
  (c10_run_preserves_caller_request c1ctx c10heap 7 1 c10req rfl).1

theorem backoffLoop_pos (maxDelay : Int) (hm : 0 < maxDelay) :
    ∀ (n : Nat) (d : Int), 0 < d → 0 < backoffLoop maxDelay d n := by
  intro n
  induction n with
  | zero => intro d hd; exact hd
  | succ n ih =>
    intro d hd
    simp only [backoffLoop]
    split
    · exact hm
    · exact ih (d * 2) (by omega)

theorem ediv_jitter_bound (maxDelay pre jn jd : Int) (hjd : 0 < jd)
    (hlow : 4 * jd ≤ 5 * jn) (hhigh : 5 * jn < 6 * jd) (hpre : 0 < pre)
    (hle : pre ≤ maxDelay) :
    0 ≤ pre * jn / jd ∧ 5 * (pre * jn / jd) ≤ 6 * maxDelay := by
  have hjn : 0 < jn := by omega
  have key : pre * jn / jd * jd ≤ pre * jn := Int.ediv_mul_le _ (by omega)
  have hnn : 0 ≤ pre * jn / jd := Int.ediv_nonneg (by positivity) (by omega)
  refine ⟨hnn, ?_⟩
  have h2 : 5 * (pre * jn) ≤ 6 * maxDelay * jd := by nlinarith
  have h3 : 5 * (pre * jn / jd) * jd ≤ 6 * maxDelay * jd := by nlinarith
  exact le_of_mul_le_mul_right h3 hjd

theorem computeBackoff_bounds (policy : RetryPolicy) (attempt : Nat) (jn jd : Int)
    (hjd : 0 < jd) (hlow : 4 * jd ≤ 5 * jn) (hhigh : 5 * jn < 6 * jd)
    (hbase : 0 < policy.baseDelay) (hbm : policy.baseDelay ≤ policy.maxDelay) :
    0 ≤ ComputeBackoffDelay policy attempt (jn, jd) ∧
    5 * ComputeBackoffDelay policy attempt (jn, jd) ≤ 6 * policy.maxDelay := by
  have hmax : 0 < policy.maxDelay := lt_of_lt_of_le hbase hbm
  have hdef : ComputeBackoffDelay policy attempt (jn, jd) =
      (if backoffLoop policy.maxDelay policy.baseDelay attempt > policy.maxDelay
        then policy.maxDelay
        else backoffLoop policy.maxDelay policy.baseDelay attempt) * jn / jd := rfl
  rw [hdef]
  have hpos : 0 < backoffLoop policy.maxDelay policy.baseDelay attempt :=
    backoffLoop_pos policy.maxDelay hmax attempt policy.baseDelay hbase
  split
  · exact ediv_jitter_bound policy.maxDelay policy.maxDelay jn jd hjd hlow hhigh hmax le_rfl
  · exact ediv_jitter_bound policy.maxDelay _ jn jd hjd hlow hhigh hpos (by omega)

theorem sleeps_sum_le (B : Int) : ∀ (l : List Int), (∀ d ∈ l, 5 * d ≤ B) →
    5 * l.sum ≤ (l.length : Int) * B := by
  intro l
  induction l with
  | nil => intro _; simp
  | cons d t ih =>
    intro h
    have hd : 5 * d ≤ B := h d (List.mem_cons_self d t)
    have ht : 5 * t.sum ≤ (t.length : Int) * B :=
      ih (fun x hx => h x (List.mem_cons_of_mem d hx))
    simp only [List.sum_cons, List.length_cons]
    push_cast
    nlinarith

theorem swrAux_bounds (scripts : Nat → StreamScript) (jitters : Nat → Int × Int)
    (retry : RetryPolicy)
    (hj : ∀ k, 0 < (jitters k).2 ∧ 4 * (jitters k).2 ≤ 5 * (jitters k).1 ∧
      5 * (jitters k).1 < 6 * (jitters k).2)
    (hbase : 0 < retry.baseDelay) (hbm : retry.baseDelay ≤ retry.maxDelay) :
    ∀ (fuel attempt : Nat) (st : StreamState),
      (streamWithRetryAux scripts jitters retry fuel attempt st).attemptEvents.length ≤ fuel + 1 ∧
      (streamWithRetryAux scripts jitters retry fuel attempt st).sleeps.length ≤ fuel ∧
      ∀ d ∈ (streamWithRetryAux scripts jitters retry fuel attempt st).sleeps,
        0 ≤ d ∧ 5 * d ≤ 6 * retry.maxDelay := by
  intro fuel
  induction fuel with
  | zero =>
    intro attempt st
    rcases hstream : streamOnce (scripts attempt) st with ⟨evs, st', err?⟩
    simp [streamWithRetryAux, hstream]
  | succ fuel ih =>
    intro attempt st
    rcases hstream : streamOnce (scripts attempt) st with ⟨evs, st', err?⟩
    simp only [streamWithRetryAux, hstream]
    cases err? with
    | none => simp
    | some e =>
      cases hc : e.isCanceled with
      | true => simp [hc]
      | false =>
      simp only [hc, Bool.false_eq_true, if_false]
      cases hg : retryStop retry e st' attempt with
      | true => simp
      | false =>
        simp only [Bool.false_eq_true, if_false]
        obtain ⟨ih1, ih2, ih3⟩ := ih (attempt + 1) st'
        have hb := computeBackoff_bounds retry attempt (jitters attempt).1
          (jitters attempt).2 (hj attempt).1 (hj attempt).2.1 (hj attempt).2.2 hbase hbm
        refine ⟨by simpa using Nat.succ_le_succ ih1, by simpa using Nat.succ_le_succ ih2, ?_⟩
        intro d hd
        rcases List.mem_cons.mp hd with rfl | hd'
        · simpa using hb
        · exact ih3 d hd'

/-- C6 amended: a provider stream performs at most `max_retries + 1`
attempts, and with the ±20 % jitter the total backoff slept is at most
`(6/5) · max_retries · max_delay` (stated integrally as
`5 · Σ backoffs ≤ 6 · max_retries · max_delay`); the un-jittered
`max_retries · max_delay` bound of the original claim is exceeded (see the
counterexample). -/
theorem c6_amended_backoff_bounds (scripts : Nat → StreamScript)
    (jitters : Nat → Int × Int) (retry : RetryPolicy)
    (hj : ∀ k, 0 < (jitters k).2 ∧ 4 * (jitters k).2 ≤ 5 * (jitters k).1 ∧
      5 * (jitters k).1 < 6 * (jitters k).2)
    (hbase : 0 < retry.baseDelay) (hbm : retry.baseDelay ≤ retry.maxDelay)
    (hmr : 0 ≤ retry.maxRetries) :
    ((streamWithRetryRun scripts jitters retry).attemptEvents.length : Int) ≤
      retry.maxRetries + 1 ∧
    5 * (streamWithRetryRun scripts jitters retry).sleeps.sum ≤
      6 * (retry.maxRetries * retry.maxDelay) := by
  obtain ⟨h1, h2, h3⟩ := swrAux_bounds scripts jitters retry hj hbase hbm
    retry.maxRetries.toNat 0 { reason := .stop }
  have htn : (retry.maxRetries.toNat : Int) = retry.maxRetries := Int.toNat_of_nonneg hmr
  constructor
  · unfold streamWithRetryRun
    omega
  · have hs := sleeps_sum_le (6 * retry.maxDelay)
      (streamWithRetryRun scripts jitters retry).sleeps
      (fun d hd => (h3 d hd).2)
    have hlen : ((streamWithRetryRun scripts jitters retry).sleeps.length : Int) ≤
        retry.maxRetries := by
      unfold streamWithRetryRun
      omega
    have hmd : 0 ≤ 6 * retry.maxDelay := by omega
    calc 5 * (streamWithRetryRun scripts jitters retry).sleeps.sum
        ≤ ((streamWithRetryRun scripts jitters retry).sleeps.length : Int) *
            (6 * retry.maxDelay) := hs
      _ ≤ retry.maxRetries * (6 * retry.maxDelay) :=
          mul_le_mul_of_nonneg_right hlen hmd
      _ = 6 * (retry.maxRetries * retry.maxDelay) := by ring

/-- C6 witness: the amended bounds at a concrete scripted run (jitter 1). -/
theorem c6_witness :
    5 * (streamWithRetryRun c6scripts (fun _ => (1, 1)) c6pol).sleeps.sum ≤
      6 * (c6pol.maxRetries * c6pol.maxDelay) :=
  (c6_amended_backoff_bounds c6scripts (fun _ => (1, 1)) c6pol
    (by intro k; norm_num) (by decide) (by decide) (by decide)).2

theorem handle_visible (ev : SDKEvent) (st : StreamState)
    (h : (handleSDKStreamEvent ev st).2.1.emittedVisible = false) :
    st.emittedVisible = false ∧
      ∀ e ∈ (handleSDKStreamEvent ev st).1, e.isVisibleOutput = false := by
  cases ev with
  | messageStart u =>
    refine ⟨by simpa [handleSDKStreamEvent] using h, ?_⟩
    simp [handleSDKStreamEvent, Event.isVisibleOutput]
  | contentBlockStart index block =>
    cases block with
    | text t =>
      exact ⟨by simpa [handleSDKStreamEvent] using h,
        by simp [handleSDKStreamEvent, Event.isVisibleOutput]⟩
    | thinking th sig =>
      exact ⟨by simpa [handleSDKStreamEvent] using h,
        by simp [handleSDKStreamEvent, Event.isVisibleOutput]⟩
    | redactedThinking d =>
      exact ⟨by simpa [handleSDKStreamEvent] using h,
        by simp [handleSDKStreamEvent, Event.isVisibleOutput]⟩
    | toolUse id name input =>
      cases input with
      | error e =>
        exact ⟨by simpa [handleSDKStreamEvent] using h, by simp [handleSDKStreamEvent]⟩
      | ok rawInput => simp [handleSDKStreamEvent] at h
    | serverToolUse id name input =>
      cases input with
      | error e =>
        exact ⟨by simpa [handleSDKStreamEvent] using h, by simp [handleSDKStreamEvent]⟩
      | ok rawInput =>
        exact ⟨by simpa [handleSDKStreamEvent] using h,
          by simp [handleSDKStreamEvent, Event.isVisibleOutput]⟩
    | webSearchToolResult tid =>
      exact ⟨by simpa [handleSDKStreamEvent] using h,
        by simp [handleSDKStreamEvent, Event.isVisibleOutput]⟩
    | unsupported =>
      exact ⟨by simpa [handleSDKStreamEvent] using h, by simp [handleSDKStreamEvent]⟩
  | contentBlockDelta index delta =>
    cases delta with
    | text s => simp [handleSDKStreamEvent] at h
    | inputJSON fragment =>
      cases hacc : accLookup st.toolAccumulators index with
      | none =>
        exact ⟨by simpa [handleSDKStreamEvent, hacc] using h,
          by simp [handleSDKStreamEvent, hacc]⟩
      | some acc => simp [handleSDKStreamEvent, hacc] at h
    | other =>
      exact ⟨by simpa [handleSDKStreamEvent] using h, by simp [handleSDKStreamEvent]⟩
  | contentBlockStop index =>
    cases hacc : accLookup st.toolAccumulators index with
    | none =>
      exact ⟨by simpa [handleSDKStreamEvent, hacc] using h,
        by simp [handleSDKStreamEvent, hacc]⟩
    | some acc =>
      by_cases hv : jsonValid (if trimGo acc.buf = [] then str "\x7b\x7d"
          else trimGo acc.buf) = true
      · simp [handleSDKStreamEvent, hacc, hv] at h
      · refine ⟨?_, ?_⟩
        · simpa [handleSDKStreamEvent, hacc, hv] using h
        · simp [handleSDKStreamEvent, hacc, hv]
  | messageDelta stopReason u =>
    by_cases hr : 0 < stopReason.length
    · cases hm : mapStopReason stopReason with
      | error e =>
        exact ⟨by simpa [handleSDKStreamEvent, hr, hm] using h,
          by simp [handleSDKStreamEvent, hr, hm]⟩
      | ok r =>
        exact ⟨by simpa [handleSDKStreamEvent, hr, hm] using h,
          by simp [handleSDKStreamEvent, hr, hm, Event.isVisibleOutput]⟩
    · exact ⟨by simpa [handleSDKStreamEvent, hr] using h,
        by simp [handleSDKStreamEvent, hr, Event.isVisibleOutput]⟩
  | messageStop =>
    exact ⟨by simpa [handleSDKStreamEvent] using h,
      by simp [handleSDKStreamEvent, Event.isVisibleOutput]⟩
  | other =>
    exact ⟨by simpa [handleSDKStreamEvent] using h, by simp [handleSDKStreamEvent]⟩

theorem process_visible : ∀ (evs : List SDKEvent) (st : StreamState),
    (processSDKEvents evs st).2.1.emittedVisible = false →
    st.emittedVisible = false ∧
      ∀ e ∈ (processSDKEvents evs st).1, e.isVisibleOutput = false := by
  intro evs
  induction evs with
  | nil => intro st h; exact ⟨h, by simp [processSDKEvents]⟩
  | cons ev rest ih =>
    intro st h
    rcases hstep : handleSDKStreamEvent ev st with ⟨evs1, st', err?⟩
    cases err? with
    | some e =>
      simp only [processSDKEvents, hstep] at h ⊢
      obtain ⟨h1, h2⟩ := handle_visible ev st (by rw [hstep]; exact h)
      rw [hstep] at h2
      exact ⟨h1, h2⟩
    | none =>
      by_cases hdone : st'.emittedDone = true
      · simp only [processSDKEvents, hstep, hdone, if_pos] at h ⊢
        obtain ⟨h1, h2⟩ := handle_visible ev st (by rw [hstep]; exact h)
        rw [hstep] at h2
        exact ⟨h1, h2⟩
      · simp only [processSDKEvents, hstep, hdone, Bool.false_eq_true, if_false] at h ⊢
        rcases hrec : processSDKEvents rest st' with ⟨evs2, st2, e2⟩
        rw [hrec] at h
        simp only at h
        obtain ⟨h1', h2'⟩ := ih st' (by rw [hrec]; exact h)
        obtain ⟨h1, h2⟩ := handle_visible ev st (by rw [hstep]; exact h1')
        rw [hstep] at h2
        rw [hrec] at h2'
        simp only [hrec]
        refine ⟨h1, ?_⟩
        intro e he
        rcases List.mem_append.mp he with he1 | he2
        · exact h2 e he1
        · exact h2' e he2

theorem streamOnce_decomp (script : StreamScript) (st : StreamState) :
    (streamOnce script st).1 =
      (if st.startEmitted then [] else [({ type := EventType.start } : Event)]) ++
        (processSDKEvents script.events
          (if st.startEmitted then st else { st with startEmitted := true })).1 ∧
    (streamOnce script st).2.1 =
      (processSDKEvents script.events
        (if st.startEmitted then st else { st with startEmitted := true })).2.1 := by
  unfold streamOnce
  by_cases hse : st.startEmitted = true
  · simp only [hse, if_true, if_pos]
    rcases hp : processSDKEvents script.events st with ⟨evs1, st1, err?⟩
    cases err? with
    | some e => simp
    | none =>
      by_cases hdone : st1.emittedDone = true
      · simp [hdone]
      · cases hserr : script.streamErr with
        | none => simp [hdone, hserr]
        | some p =>
          rcases p with ⟨r, m⟩
          simp [hdone, hserr]
  · simp only [hse, Bool.false_eq_true, if_false]
    rcases hp : processSDKEvents script.events { st with startEmitted := true }
      with ⟨evs1, st1, err?⟩
    cases err? with
    | some e => simp
    | none =>
      by_cases hdone : st1.emittedDone = true
      · simp [hdone]
      · cases hserr : script.streamErr with
        | none => simp [hdone, hserr]
        | some p =>
          rcases p with ⟨r, m⟩
          simp [hdone, hserr]

theorem streamOnce_visible (script : StreamScript) (st : StreamState)
    (h : (streamOnce script st).2.1.emittedVisible = false) :
    st.emittedVisible = false ∧
      ∀ e ∈ (streamOnce script st).1, e.isVisibleOutput = false := by
  obtain ⟨hev, hst⟩ := streamOnce_decomp script st
  rw [hst] at h
  obtain ⟨h1, h2⟩ := process_visible script.events
    (if st.startEmitted then st else { st with startEmitted := true }) h
  have h1' : st.emittedVisible = false := by
    by_cases hse : st.startEmitted = true
    · simpa [hse] using h1
    · simpa [hse] using h1
  refine ⟨h1', ?_⟩
  rw [hev]
  intro e he
  rcases List.mem_append.mp he with he0 | he1
  · have : e = ({ type := EventType.start } : Event) := by
      by_cases hse : st.startEmitted = true
      · simp [hse] at he0
      · simpa [hse] using he0
    rw [this]
    decide
  · exact h2 e he1

theorem retryStop_false_visible (retry : RetryPolicy) (e : GoError) (st : StreamState)
    (attempt : Nat) (hg : retryStop retry e st attempt = false) :
    st.emittedVisible = false := by
  simp [retryStop] at hg
  tauto

theorem swrAux_visible (scripts : Nat → StreamScript) (jitters : Nat → Int × Int)
    (retry : RetryPolicy) :
    ∀ (fuel attempt : Nat) (st : StreamState) (k : Nat),
      k + 1 < (streamWithRetryAux scripts jitters retry fuel attempt st).attemptEvents.length →
      ∀ e ∈ ((streamWithRetryAux scripts jitters retry fuel attempt
          st).attemptEvents.take (k + 1)).flatten,
        e.isVisibleOutput = false := by
  intro fuel
  induction fuel with
  | zero =>
    intro attempt st k hk
    rcases hstream : streamOnce (scripts attempt) st with ⟨evs, st', err?⟩
    simp [streamWithRetryAux, hstream] at hk
  | succ fuel ih =>
    intro attempt st k hk
    rcases hstream : streamOnce (scripts attempt) st with ⟨evs, st', err?⟩
    simp only [streamWithRetryAux, hstream] at hk ⊢
    cases err? with
    | none => simp at hk
    | some e =>
      cases hc : e.isCanceled with
      | true => simp [hc] at hk
      | false =>
        simp only [hc, Bool.false_eq_true, if_false] at hk ⊢
        cases hg : retryStop retry e st' attempt with
        | true => simp [hg] at hk
        | false =>
          simp only [hg, Bool.false_eq_true, if_false] at hk ⊢
          have hvis : st'.emittedVisible = false := retryStop_false_visible retry e st' attempt hg
          have hevs := (streamOnce_visible (scripts attempt) st (by rw [hstream]; exact hvis)).2
          rw [hstream] at hevs
          cases k with
          | zero =>
            intro e' he'
            simp only [List.take, List.flatten_cons, List.flatten_nil, List.append_nil] at he'
            exact hevs e' he'
          | succ k' =>
            intro e' he'
            simp only [List.take_succ_cons, List.flatten_cons] at he'
            rcases List.mem_append.mp he' with h1 | h2
            · exact hevs e' h1
            · have hlen : k' + 1 <
                  (streamWithRetryAux scripts jitters retry fuel (attempt + 1)
                    st').attemptEvents.length := by
                simp only [List.length_cons] at hk
                omega
              exact ih (attempt + 1) st' k' hlen e' h2

/-- C2: a provider attempt is retried only when no text delta, no tool-call
delta and no tool-call start has been emitted by any earlier attempt (every
attempt that is followed by another one emitted none of these), and whenever
`streamWithRetry` ends in failure the stream's last event is the terminal
`error`. -/
theorem c2_retry_only_before_visible (scripts : Nat → StreamScript)
    (jitters : Nat → Int × Int) (retry : RetryPolicy) :
    (∀ k, k + 1 < (streamWithRetryRun scripts jitters retry).attemptEvents.length →
      ∀ e ∈ ((streamWithRetryRun scripts jitters retry).attemptEvents.take (k + 1)).flatten,
        e.type ≠ EventType.textDelta ∧ e.type ≠ EventType.toolCallDelta ∧
          e.type ≠ EventType.toolCallStart) ∧
    ((streamWithRetryRun scripts jitters retry).err.isSome = true →
      (providerRunEvents scripts jitters retry).getLast?.map (fun e => e.type) =
        some EventType.error) := by
  constructor
  · intro k hk e he
    have hv := swrAux_visible scripts jitters retry retry.maxRetries.toNat 0
      { reason := .stop } k hk e he
    simp only [Event.isVisibleOutput, Bool.or_eq_false_iff, decide_eq_false_iff_not] at hv
    exact ⟨hv.1.1, hv.1.2, hv.2⟩
  · intro hsome
    unfold providerRunEvents
    cases herr : (streamWithRetryRun scripts jitters retry).err with
    | none => rw [herr] at hsome; cases hsome
    | some e => simp [herr]

/-- C2 witness: scenario S4 — a text delta followed by a retryable transport
failure yields a single attempt whose stream ends with the `error`
terminal. -/
theorem c2_witness :
    (providerRunEvents c2scripts (fun _ => (1, 1))
        (MergeRetryPolicy { maxRetries := 3 } {})).getLast?.map (fun e => e.type) =
      some EventType.error :=
  (c2_retry_only_before_visible c2scripts (fun _ => (1, 1))
    (MergeRetryPolicy { maxRetries := 3 } {})).2 (by decide)

/-- C7 amended: on content-block end the reassembled buffer (trimmed; empty
defaults to `{}`) must be *valid JSON* — not necessarily a JSON object, see
the counterexample — and exactly then a `tool_call_end` carrying it is
emitted; otherwise the step fails with the protocol error and emits nothing.
Moreover every `tool_call_end` the event handler ever emits carries valid
JSON arguments. -/
theorem c7_amended_toolcallend_valid_json :
    (∀ (st : StreamState) (index : Int) (acc : ToolCallAccumulator),
      accLookup st.toolAccumulators index = some acc →
      (jsonValid (if trimGo acc.buf = [] then str "\x7b\x7d" else trimGo acc.buf) = true →
        handleSDKStreamEvent (.contentBlockStop index) st =
          ([{ type := .toolCallEnd,
              toolCall := some
                { id := acc.id, name := acc.name,
                  arguments := if trimGo acc.buf = [] then str "\x7b\x7d"
                    else trimGo acc.buf } }],
            { st with toolAccumulators := accDelete st.toolAccumulators index,
                      emittedVisible := true }, none)) ∧
      (jsonValid (if trimGo acc.buf = [] then str "\x7b\x7d" else trimGo acc.buf) = false →
        handleSDKStreamEvent (.contentBlockStop index) st =
          ([], { st with toolAccumulators := accDelete st.toolAccumulators index },
            some (.msg "tool_call arguments are not valid JSON")))) ∧
    (∀ (st : StreamState) (index : Int),
      accLookup st.toolAccumulators index = none →
      handleSDKStreamEvent (.contentBlockStop index) st = ([], st, none)) ∧
    (∀ (ev : SDKEvent) (st : StreamState),
      ∀ e ∈ (handleSDKStreamEvent ev st).1, e.type = EventType.toolCallEnd →
        ∀ c, e.toolCall = some c → jsonValid c.arguments = true) := by
  refine ⟨?_, ?_, ?_⟩
  · intro st index acc hacc
    constructor
    · intro hv
      simp only [handleSDKStreamEvent, hacc, List.length_eq_zero]
      simp [hv]
    · intro hv
      simp only [handleSDKStreamEvent, hacc, List.length_eq_zero]
      simp [hv]
  · intro st index hacc
    simp [handleSDKStreamEvent, hacc]
  · intro ev st e he ht c hc
    cases ev with
    | messageStart u => simp [handleSDKStreamEvent] at he; simp [he] at ht
    | contentBlockStart index block =>
      cases block with
      | text t => simp [handleSDKStreamEvent] at he; simp [he] at ht
      | thinking th sig => simp [handleSDKStreamEvent] at he; simp [he] at ht
      | redactedThinking d => simp [handleSDKStreamEvent] at he; simp [he] at ht
      | toolUse id name input =>
        cases input with
        | error err => simp [handleSDKStreamEvent] at he
        | ok rawInput =>
          simp [handleSDKStreamEvent] at he
          rcases he with he | he <;> simp [he] at ht
      | serverToolUse id name input =>
        cases input with
        | error err => simp [handleSDKStreamEvent] at he
        | ok rawInput => simp [handleSDKStreamEvent] at he; simp [he] at ht
      | webSearchToolResult tid => simp [handleSDKStreamEvent] at he; simp [he] at ht
      | unsupported => simp [handleSDKStreamEvent] at he
    | contentBlockDelta index delta =>
      cases delta with
      | text s => simp [handleSDKStreamEvent] at he; simp [he] at ht
      | inputJSON fragment =>
        cases hacc : accLookup st.toolAccumulators index with
        | none => simp [handleSDKStreamEvent, hacc] at he
        | some acc =>
          simp [handleSDKStreamEvent, hacc] at he
          simp [he] at ht
      | other => simp [handleSDKStreamEvent] at he
    | contentBlockStop index =>
      cases hacc : accLookup st.toolAccumulators index with
      | none => simp [handleSDKStreamEvent, hacc] at he
      | some acc =>
        by_cases hv : jsonValid (if trimGo acc.buf = [] then str "\x7b\x7d"
            else trimGo acc.buf) = true
        · simp [handleSDKStreamEvent, hacc, hv] at he
          rw [he] at hc
          simp at hc
          rw [← hc]
          exact hv
        · simp [handleSDKStreamEvent, hacc, hv] at he
    | messageDelta stopReason u =>
      by_cases hr : 0 < stopReason.length
      · cases hm : mapStopReason stopReason with
        | error err => simp [handleSDKStreamEvent, hr, hm] at he
        | ok r =>
          simp [handleSDKStreamEvent, hr, hm] at he
          simp [he] at ht
      · simp [handleSDKStreamEvent, hr] at he
        simp [he] at ht
    | messageStop => simp [handleSDKStreamEvent] at he; simp [he] at ht
    | other => simp [handleSDKStreamEvent] at he

/-- C7 witness: with an accumulator holding the JSON object `{"a":1}`,
content-block end emits `tool_call_end` with no error. -/
theorem c7_witness :
    (handleSDKStreamEvent (.contentBlockStop 0) c7okState).2.2 = none := by
  have h := ((c7_amended_toolcallend_valid_json).1 c7okState 0
    { id := str "toolu_2", name := str "Read", buf := str "\x7b\"a\":1\x7d" }
    (by decide)).1 (by decide)
  rw [h]

/-- C8: every path a confinement-aware tool resolves through
`resolveWorkspacePath` is inside the workspace: a successful resolution
satisfies `isWithinWorkspace` against the normalized root, and when the
canonicalized target escapes the root the call fails with an error chain
containing `ErrPathOutsideWorkspace` (so the tool returns before touching the
target). -/
theorem c8_workspace_confinement (env : FSEnv) (root input : GoStr) (allowCreate : Bool) :
    (∀ p, resolveWorkspacePath env root input allowCreate = .ok p →
      ∃ rootN, normalizeWorkspaceRoot env root = .ok rootN ∧
        isWithinWorkspace rootN p = true) ∧
    (∀ rootN resolved,
      normalizeWorkspaceRoot env root = .ok rootN →
      ¬ trimGo (normalizeToolPathInput env input) = [] →
      resolvePathWithOptionalMissing env
        (pathClean (if pathIsAbs (normalizeToolPathInput env input) then
            normalizeToolPathInput env input
          else pathJoin rootN (normalizeToolPathInput env input))) allowCreate =
        .ok resolved →
      isWithinWorkspace rootN resolved = false →
      resolveWorkspacePath env root input allowCreate =
        .error (.wrap "path is outside workspace" .pathOutsideWorkspace) ∧
      GoError.isPathOutsideWorkspace
        (.wrap "path is outside workspace" .pathOutsideWorkspace) = true) := by
  constructor
  · intro p hp
    unfold resolveWorkspacePath at hp
    by_cases h1 : trimGo (normalizeToolPathInput env input) = []
    · simp [h1] at hp
    · simp only [h1, if_neg, if_false] at hp
      cases hroot : normalizeWorkspaceRoot env root with
      | error e => rw [hroot] at hp; cases hp
      | ok rootN =>
        rw [hroot] at hp
        cases hres : resolvePathWithOptionalMissing env
            (pathClean (if pathIsAbs (normalizeToolPathInput env input) then
                normalizeToolPathInput env input
              else pathJoin rootN (normalizeToolPathInput env input))) allowCreate with
        | error e => simp only [hres] at hp; cases hp
        | ok resolved =>
          simp only [hres] at hp
          by_cases hw : isWithinWorkspace rootN resolved = true
          · refine ⟨rootN, rfl, ?_⟩
            simp only [hw, not_true, if_neg, if_false] at hp
            cases hp
            exact hw
          · simp only [Bool.not_eq_true] at hw
            simp [hw] at hp
  · intro rootN resolved hroot hne hres hout
    refine ⟨?_, by decide⟩
    unfold resolveWorkspacePath
    simp only [hne, if_neg, if_false, hroot, hres, hout]
    simp

/-- C8 witness: concrete resolution of `a/b` against workspace `/w` stays
inside the workspace. -/
theorem c8_witness :
    ∃ rootN, normalizeWorkspaceRoot c8env (str "/w") = .ok rootN ∧
      isWithinWorkspace rootN (str "/w/a/b") = true :=
  (c8_workspace_confinement c8env (str "/w") (str "a/b") false).1 (str "/w/a/b") rfl

theorem isTerminal_false_not_error (e : Event) (h : e.isTerminal = false) :
    e.type ≠ EventType.error := by
  simp [Event.isTerminal] at h
  exact h.2

theorem fwd_none_nonterminal : ∀ (stream : List Event) (acc : AssistantAccumulator),
    (forwardProviderEvents stream acc).2.2 = none →
    ∀ e ∈ (forwardProviderEvents stream acc).1, e.isTerminal = false := by
  intro stream
  induction stream with
  | nil => intro acc _ e he; cases he
  | cons ev rest ih =>
    intro acc hn e he
    by_cases ht : (ev.type = EventType.done || ev.type = EventType.error) = true
    · simp only [forwardProviderEvents, ht, if_pos] at hn
      cases hn
    · simp only [forwardProviderEvents, ht, Bool.false_eq_true, if_false] at hn he
      rcases hrec : forwardProviderEvents rest (acc.consume ev) with ⟨evs, acc', t?⟩
      rw [hrec] at hn he
      simp only at hn he
      rcases List.mem_cons.mp he with rfl | he'
      · simpa [Event.isTerminal] using ht
      · have := ih (acc.consume ev) (by rw [hrec]; exact hn)
        rw [hrec] at this
        exact this e he'

theorem fwd_some_spec : ∀ (stream : List Event) (acc : AssistantAccumulator) (t : Event),
    (forwardProviderEvents stream acc).2.2 = some t →
    (forwardProviderEvents stream acc).1 ≠ [] ∧
    (forwardProviderEvents stream acc).1.getLast? = some t ∧
    t.isTerminal = true ∧
    ∀ e ∈ (forwardProviderEvents stream acc).1.dropLast, e.isTerminal = false := by
  intro stream
  induction stream with
  | nil => intro acc t ht; cases ht
  | cons ev rest ih =>
    intro acc t hsome
    by_cases ht : (ev.type = EventType.done || ev.type = EventType.error) = true
    · simp only [forwardProviderEvents, ht, if_pos] at hsome ⊢
      cases hsome
      refine ⟨by simp, by simp, by simpa [Event.isTerminal] using ht, by simp⟩
    · simp only [forwardProviderEvents, ht, Bool.false_eq_true, if_false] at hsome ⊢
      rcases hrec : forwardProviderEvents rest (acc.consume ev) with ⟨evs, acc', t?⟩
      obtain ⟨hne, hlast, hterm, hdrop⟩ := by
        have h0 := ih (acc.consume ev) t hsome
        rw [hrec] at h0
        simpa using h0
      refine ⟨by simp, ?_, hterm, ?_⟩
      · rw [show (ev :: evs) = [ev] ++ evs from rfl]
        rw [List.getLast?_append_of_ne_nil _ hne]
        exact hlast
      · rw [show (ev :: evs) = [ev] ++ evs from rfl]
        rw [List.dropLast_append_of_ne_nil [ev] hne]
        intro e he
        rcases List.mem_append.mp he with he0 | he1
        · have : e = ev := by simpa using he0
          rw [this]
          simpa [Event.isTerminal] using ht
        · exact hdrop e he1

theorem skipRemaining_nonterminal : ∀ (calls : List ToolCall),
    ∀ e ∈ (skipRemainingCalls calls).1, e.isTerminal = false := by
  intro calls
  induction calls with
  | nil => intro e he; cases he
  | cons r rs ih =>
    intro e he
    rcases hrec : skipRemainingCalls rs with ⟨evs, msgs⟩
    simp only [skipRemainingCalls, hrec, List.cons_append, List.nil_append,
      List.mem_cons] at he
    rcases he with rfl | rfl | rfl | he'
    · rfl
    · rfl
    · rfl
    · exact ih e (by rw [hrec]; exact he')

theorem runToolCalls_nonterminal (ctx : LoopCtx) (fn : ToolCall → Except GoError Message) :
    ∀ (calls : List ToolCall) (st : LoopSt) (msgs : List Message),
    ∀ e ∈ (runToolCalls ctx fn st msgs calls).events, e.isTerminal = false := by
  intro calls
  induction calls with
  | nil => intro st msgs e he; cases he
  | cons c rest ih =>
    intro st msgs e he
    simp only [runToolCalls] at he
    cases hfn : fn (cloneToolCall c) with
    | error err =>
      rw [hfn] at he
      simp only at he
      rcases List.mem_singleton.mp he with rfl
      rfl
    | ok toolResultMessage =>
      rw [hfn] at he
      simp only at he
      by_cases hq : (ctx.steer st.steerCalls).isEmpty = true
      · simp only [dequeueSteer, hq, if_pos] at he
        rcases List.mem_append.mp he with hh | ht'
        · rcases List.mem_append.mp hh with hh2 | ht2
          · rcases List.mem_append.mp hh2 with hh3 | ht3
            · rcases List.mem_singleton.mp hh3 with rfl; rfl
            · cases htr : toolResultMessage.toolResult with
              | some tr => rw [htr] at ht3; rcases List.mem_singleton.mp ht3 with rfl; rfl
              | none => rw [htr] at ht3; cases ht3
          · rcases List.mem_singleton.mp ht2 with rfl; rfl
        · exact ih _ _ e ht'
      · simp only [dequeueSteer, hq, Bool.false_eq_true, if_false] at he
        rcases List.mem_append.mp he with hh | ht'
        · rcases List.mem_append.mp hh with hh2 | ht2
          · rcases List.mem_append.mp hh2 with hh3 | ht3
            · rcases List.mem_singleton.mp hh3 with rfl; rfl
            · cases htr : toolResultMessage.toolResult with
              | some tr => rw [htr] at ht3; rcases List.mem_singleton.mp ht3 with rfl; rfl
              | none => rw [htr] at ht3; cases ht3
          · rcases List.mem_singleton.mp ht2 with rfl; rfl
        · exact skipRemaining_nonterminal rest e ht'

theorem fwd_decomp {fwd : List Event} {t : Event} (hlast : fwd.getLast? = some t) :
    fwd = fwd.dropLast ++ [t] :=
  (List.dropLast_append_getLast? t hlast).symm

theorem fwd_mem_not_error {fwd : List Event} {t : Event}
    (hlast : fwd.getLast? = some t)
    (hdrop : ∀ e ∈ fwd.dropLast, e.isTerminal = false)
    (hterr : t.type ≠ EventType.error) :
    ∀ e ∈ fwd, e.type ≠ EventType.error := by
  intro e he
  rw [fwd_decomp hlast] at he
  rcases List.mem_append.mp he with h1 | h2
  · exact isTerminal_false_not_error e (hdrop e h1)
  · rcases List.mem_singleton.mp h2 with rfl
    exact hterr

theorem fwd_conclusions {fwd : List Event} {t : Event}
    (hne : fwd ≠ []) (hlast : fwd.getLast? = some t) (hterm : t.isTerminal = true)
    (hdrop : ∀ e ∈ fwd.dropLast, e.isTerminal = false) :
    fwd ≠ [] ∧
    (∀ u, fwd.getLast? = some u → u.isTerminal = true) ∧
    (∀ e ∈ fwd.dropLast, e.type ≠ EventType.error) := by
  refine ⟨hne, ?_, ?_⟩
  · intro u hu
    rw [hlast] at hu
    cases hu
    exact hterm
  · intro e he
    exact isTerminal_false_not_error e (hdrop e he)

theorem rec_true_case {fwd mid revs : List Event} {t : Event}
    (hlast : fwd.getLast? = some t)
    (hdrop : ∀ e ∈ fwd.dropLast, e.isTerminal = false)
    (hterr : t.type ≠ EventType.error)
    (hmid : ∀ e ∈ mid, e.isTerminal = false)
    (hne : revs ≠ [])
    (hlast' : ∀ u, revs.getLast? = some u → u.isTerminal = true)
    (hdrop' : ∀ e ∈ revs.dropLast, e.type ≠ EventType.error) :
    fwd ++ mid ++ revs ≠ [] ∧
    (∀ u, (fwd ++ mid ++ revs).getLast? = some u → u.isTerminal = true) ∧
    (∀ e ∈ (fwd ++ mid ++ revs).dropLast, e.type ≠ EventType.error) := by
  refine ⟨?_, ?_, ?_⟩
  · intro h
    rcases List.append_eq_nil.mp h with ⟨_, h2⟩
    exact hne h2
  · intro u hu
    rw [List.getLast?_append_of_ne_nil _ hne] at hu
    exact hlast' u hu
  · intro e he
    rw [List.dropLast_append_of_ne_nil (fwd ++ mid) hne] at he
    rcases List.mem_append.mp he with h1 | h2
    · rcases List.mem_append.mp h1 with h3 | h4
      · exact fwd_mem_not_error hlast hdrop hterr e h3
      · exact isTerminal_false_not_error e (hmid e h4)
    · exact hdrop' e h2

theorem rec_false_case {fwd mid revs : List Event} {t : Event}
    (hlast : fwd.getLast? = some t)
    (hdrop : ∀ e ∈ fwd.dropLast, e.isTerminal = false)
    (hterr : t.type ≠ EventType.error)
    (hmid : ∀ e ∈ mid, e.isTerminal = false)
    (hrevs : ∀ e ∈ revs, e.type ≠ EventType.error) :
    ∀ e ∈ fwd ++ mid ++ revs, e.type ≠ EventType.error := by
  intro e he
  rcases List.mem_append.mp he with h1 | h2
  · rcases List.mem_append.mp h1 with h3 | h4
    · exact fwd_mem_not_error hlast hdrop hterr e h3
    · exact isTerminal_false_not_error e (hmid e h4)
  · exact hrevs e h2

theorem rec_true_case2 {fwd revs : List Event} {t : Event}
    (hlast : fwd.getLast? = some t)
    (hdrop : ∀ e ∈ fwd.dropLast, e.isTerminal = false)
    (hterr : t.type ≠ EventType.error)
    (hne : revs ≠ [])
    (hlast' : ∀ u, revs.getLast? = some u → u.isTerminal = true)
    (hdrop' : ∀ e ∈ revs.dropLast, e.type ≠ EventType.error) :
    fwd ++ revs ≠ [] ∧
    (∀ u, (fwd ++ revs).getLast? = some u → u.isTerminal = true) ∧
    (∀ e ∈ (fwd ++ revs).dropLast, e.type ≠ EventType.error) := by
  have h := @rec_true_case fwd [] revs t hlast hdrop hterr
    (by intro e he; cases he) hne hlast' hdrop'
  simpa using h

theorem rec_false_case2 {fwd revs : List Event} {t : Event}
    (hlast : fwd.getLast? = some t)
    (hdrop : ∀ e ∈ fwd.dropLast, e.isTerminal = false)
    (hterr : t.type ≠ EventType.error)
    (hrevs : ∀ e ∈ revs, e.type ≠ EventType.error) :
    ∀ e ∈ fwd ++ revs, e.type ≠ EventType.error := by
  have h := @rec_false_case fwd [] revs t hlast hdrop hterr
    (by intro e he; cases he) hrevs
  intro e he
  exact h e (by simpa using he)


theorem runTurns_inv (ctx : LoopCtx) : ∀ (fuel : Nat) (st : LoopSt)
    (msgs pending : List Message),
    ((runTurns ctx fuel st msgs pending).terminalForwarded = true →
      (runTurns ctx fuel st msgs pending).err = none ∧
      (runTurns ctx fuel st msgs pending).events ≠ [] ∧
      (∀ u, (runTurns ctx fuel st msgs pending).events.getLast? = some u →
        u.isTerminal = true) ∧
      (∀ e ∈ (runTurns ctx fuel st msgs pending).events.dropLast,
        e.type ≠ EventType.error)) ∧
    ((runTurns ctx fuel st msgs pending).terminalForwarded = false →
      (runTurns ctx fuel st msgs pending).err.isSome = true ∧
      ∀ e ∈ (runTurns ctx fuel st msgs pending).events,
        e.type ≠ EventType.error) := by
  intro fuel
  induction fuel with
  | zero =>
    intro st msgs pending
    refine ⟨fun h => ?_, fun _ => ⟨rfl, fun x hx => ?_⟩⟩
    · simp [runTurns] at h
    · simp [runTurns] at hx
  | succ fuel ih =>
    intro st msgs pending
    simp only [runTurns]
    split
    · exact ⟨fun h => by simp at h, fun _ => ⟨rfl, fun x hx => by simp at hx⟩⟩
    · rename_i stream heqp
      rcases hf : forwardProviderEvents stream {} with ⟨fwd, acc, t?⟩
      cases t? with
      | none =>
        have hnt := fwd_none_nonterminal stream {} (by rw [hf])
        rw [hf] at hnt
        have hnt' : ∀ e ∈ fwd, e.isTerminal = false := hnt
        simp only [hf]
        refine ⟨fun h => by simp at h, fun _ => ⟨rfl, fun x hx => ?_⟩⟩
        exact isTerminal_false_not_error x (hnt' x hx)
      | some terminal =>
        have hspec := fwd_some_spec stream {} terminal (by rw [hf])
        rw [hf] at hspec
        have hne : fwd ≠ [] := hspec.1
        have hlast : fwd.getLast? = some terminal := hspec.2.1
        have hterm : terminal.isTerminal = true := hspec.2.2.1
        have hdrop : ∀ e ∈ fwd.dropLast, e.isTerminal = false := hspec.2.2.2
        simp only [hf]
        by_cases hterrEq : terminal.type = EventType.error
        · rw [if_pos hterrEq]
          exact ⟨fun _ => ⟨rfl, fwd_conclusions hne hlast hterm hdrop⟩,
            fun h => by simp at h⟩
        · rw [if_neg hterrEq]
          by_cases htu : doneReasonIsToolUse terminal = true
          · rw [if_pos htu]
            split
            · rename_i fn am heq1 heq2
              by_cases hemp : am.toolCalls.isEmpty = true
              · rw [if_pos hemp]
                exact ⟨fun _ => ⟨rfl, fwd_conclusions hne hlast hterm hdrop⟩,
                  fun h => by simp at h⟩
              · rw [if_neg hemp]
                split
                · rename_i e2 heqres
                  refine ⟨fun h => by simp at h, fun _ => ⟨rfl, fun x hx => ?_⟩⟩
                  exact rec_false_case2 hlast hdrop hterrEq
                    (fun y hy => isTerminal_false_not_error y
                      (runToolCalls_nonterminal ctx fn _ _ _ y hy)) x hx
                · rename_i msgs2 st2 pending2 heqres
                  refine ⟨fun h => ?_, fun h => ?_⟩
                  · obtain ⟨herr, hne', hlast', hdrop'⟩ := (ih st2 msgs2 pending2).1 h
                    refine ⟨herr, ?_⟩
                    refine rec_true_case hlast hdrop hterrEq ?_ hne' hlast' hdrop'
                    exact fun y hy => runToolCalls_nonterminal ctx fn _ _ _ y hy
                  · obtain ⟨herr, hall⟩ := (ih st2 msgs2 pending2).2 h
                    refine ⟨herr, fun x hx => ?_⟩
                    refine rec_false_case hlast hdrop hterrEq ?_ hall x hx
                    exact fun y hy => runToolCalls_nonterminal ctx fn _ _ _ y hy
            · rename_i heqm
              exact ⟨fun _ => ⟨rfl, fwd_conclusions hne hlast hterm hdrop⟩,
                fun h => by simp at h⟩
          · rw [if_neg htu]
            simp only [dequeueSteer, dequeueFollow]
            by_cases hst : (ctx.steer st.steerCalls).isEmpty = true
            · rw [if_neg (not_not_intro hst)]
              by_cases hfu : (ctx.followUp st.followUpCalls).isEmpty = true
              · rw [if_neg (not_not_intro hfu)]
                exact ⟨fun _ => ⟨rfl, fwd_conclusions hne hlast hterm hdrop⟩,
                  fun h => by simp at h⟩
              · rw [if_pos hfu]
                refine ⟨fun h => ?_, fun h => ?_⟩
                · obtain ⟨herr, hne', hlast', hdrop'⟩ := (ih _ _ _).1 h
                  exact ⟨herr, rec_true_case2 hlast hdrop hterrEq hne' hlast' hdrop'⟩
                · obtain ⟨herr, hall⟩ := (ih _ _ _).2 h
                  exact ⟨herr, rec_false_case2 hlast hdrop hterrEq hall⟩
            · rw [if_pos hst]
              refine ⟨fun h => ?_, fun h => ?_⟩
              · obtain ⟨herr, hne', hlast', hdrop'⟩ := (ih _ _ _).1 h
                exact ⟨herr, rec_true_case2 hlast hdrop hterrEq hne' hlast' hdrop'⟩
              · obtain ⟨herr, hall⟩ := (ih _ _ _).2 h
                exact ⟨herr, rec_false_case2 hlast hdrop hterrEq hall⟩

/-- C1 (amended): every terminating `Agent.Run` sends a non-empty event
sequence to its output channel, the LAST event is terminal (`done` or
`error`), and no `error` event occurs before the last position.  The claim's
"exactly one terminal event" is refuted by `Gar.c1_counterexample`:
intermediate `done(tool_use)` / `done(stop)` terminals of earlier turns are
forwarded to the output as well. -/
theorem c1_amended_terminal_last (ctx : LoopCtx) (req : Request) (maxTurns : Int) :
    agentRunEvents ctx req maxTurns ≠ [] ∧
    (∀ u, (agentRunEvents ctx req maxTurns).getLast? = some u →
      u.isTerminal = true) ∧
    (∀ e ∈ (agentRunEvents ctx req maxTurns).dropLast,
      e.type ≠ EventType.error) := by
  obtain ⟨eff, st0, pending0, hrl⟩ :
      ∃ a b c, runLoop ctx (cloneRequest req).messages maxTurns =
        runTurns ctx a b (cloneRequest req).messages c := ⟨_, _, _, rfl⟩
  have hinv := runTurns_inv ctx eff st0 (cloneRequest req).messages pending0
  rw [← hrl] at hinv
  cases herr : (runLoop ctx (cloneRequest req).messages maxTurns).err with
  | none =>
    have htf : (runLoop ctx (cloneRequest req).messages maxTurns).terminalForwarded
        = true := by
      cases htf0 : (runLoop ctx (cloneRequest req).messages
          maxTurns).terminalForwarded
      · have hs := (hinv.2 htf0).1
        rw [herr] at hs
        simp at hs
      · rfl
    obtain ⟨_, hne, hlast, hdrop⟩ := hinv.1 htf
    simp only [agentRunEvents, herr]
    exact ⟨hne, hlast, hdrop⟩
  | some e =>
    have htf : (runLoop ctx (cloneRequest req).messages maxTurns).terminalForwarded
        = false := by
      cases htf0 : (runLoop ctx (cloneRequest req).messages
          maxTurns).terminalForwarded
      · rfl
      · have hs := (hinv.1 htf0).1
        rw [herr] at hs
        cases hs
    obtain ⟨_, hall⟩ := hinv.2 htf
    simp only [agentRunEvents, herr, htf, Bool.false_eq_true, if_false]
    refine ⟨by simp, ?_, ?_⟩
    · intro u hu
      rw [List.getLast?_concat] at hu
      cases hu
      rfl
    · intro x hx
      rw [List.dropLast_concat] at hx
      exact hall x hx

/-- Witness for `c1_amended_terminal_last` at the concrete C1 scenario. -/
theorem c1_witness :
    agentRunEvents c1ctx { messages := [] } 50 ≠ [] ∧
    (∀ u, (agentRunEvents c1ctx { messages := [] } 50).getLast? = some u →
      u.isTerminal = true) ∧
    (∀ e ∈ (agentRunEvents c1ctx { messages := [] } 50).dropLast,
      e.type ≠ EventType.error) :=
  c1_amended_terminal_last c1ctx { messages := [] } 50

theorem execMsg_eq_of_isOk {fn : ToolCall → Except GoError Message} {t : ToolCall}
    (h : (fn (cloneToolCall t)).isOk = true) :
    fn (cloneToolCall t) = .ok (execMsg fn t) := by
  cases hfc : fn (cloneToolCall t) with
  | ok m => simp [execMsg, hfc]
  | error e =>
    rw [hfc] at h
    simp [Except.isOk, Except.toBool] at h

theorem runTurns_sent_head (ctx : LoopCtx) (fuel : Nat) (st : LoopSt)
    (msgs pending : List Message) (h : pending.isEmpty = false) :
    (runTurns ctx (fuel + 1) st msgs pending).sentRequests.head? =
      some (msgs ++ cloneMessages pending) := by
  simp only [runTurns, h, Bool.false_eq_true, if_false]
  split
  · rfl
  · rename_i stream heqp
    rcases hf : forwardProviderEvents stream {} with ⟨fwd, acc, t?⟩
    cases t? with
    | none =>
      simp only [hf]
      rfl
    | some terminal =>
      simp only [hf]
      by_cases h1 : terminal.type = EventType.error
      · rw [if_pos h1]
        rfl
      · rw [if_neg h1]
        by_cases h2 : doneReasonIsToolUse terminal = true
        · rw [if_pos h2]
          split
          · rename_i fn am hq1 hq2
            by_cases h3 : am.toolCalls.isEmpty = true
            · rw [if_pos h3]
              rfl
            · rw [if_neg h3]
              split
              · rfl
              · rfl
          · rfl
        · rw [if_neg h2]
          simp only [dequeueSteer, dequeueFollow]
          by_cases h4 : (ctx.steer st.steerCalls).isEmpty = true
          · rw [if_neg (not_not_intro h4)]
            by_cases h5 : (ctx.followUp st.followUpCalls).isEmpty = true
            · rw [if_neg (not_not_intro h5)]
              rfl
            · rw [if_pos h5]
              rfl
          · rw [if_pos h4]
            rfl

theorem runToolCalls_steer_eq (ctx : LoopCtx) (fn : ToolCall → Except GoError Message) :
    ∀ (pre : List ToolCall) (c : ToolCall) (rest : List ToolCall)
      (st : LoopSt) (msgs : List Message),
    (∀ m, m < pre.length → (ctx.steer (st.steerCalls + m)).isEmpty = true) →
    (ctx.steer (st.steerCalls + pre.length)).isEmpty = false →
    (∀ t ∈ pre ++ [c], (fn (cloneToolCall t)).isOk = true) →
    runToolCalls ctx fn st msgs (pre ++ c :: rest) =
      { events := (pre ++ [c]).flatMap (execCallEvents fn) ++
          (skipRemainingCalls rest).1
        executed := (pre ++ [c]).map cloneToolCall
        result := .ok (msgs ++ (pre ++ [c]).map (execMsg fn) ++
            (skipRemainingCalls rest).2,
          { st with steerCalls := st.steerCalls + pre.length + 1 },
          ctx.steer (st.steerCalls + pre.length)) } := by
  intro pre
  induction pre with
  | nil =>
    intro c rest st msgs hempty hsteer hok
    have hm : fn (cloneToolCall c) = .ok (execMsg fn c) :=
      execMsg_eq_of_isOk (hok c (by simp))
    have hst0 : (ctx.steer st.steerCalls).isEmpty = false := by
      simpa using hsteer
    simp only [List.nil_append, runToolCalls, hm, dequeueSteer]
    rw [if_neg (by simp [hst0])]
    simp [execCallEvents, List.append_assoc]
  | cons p pre' ihp =>
    intro c rest st msgs hempty hsteer hok
    have hm : fn (cloneToolCall p) = .ok (execMsg fn p) :=
      execMsg_eq_of_isOk (hok p (by simp))
    have h0 : (ctx.steer st.steerCalls).isEmpty = true := by
      simpa using hempty 0 (by simp)
    have hrec := ihp c rest { st with steerCalls := st.steerCalls + 1 }
      (msgs ++ [execMsg fn p])
      (by intro m hm'
          show (ctx.steer (st.steerCalls + 1 + m)).isEmpty = true
          rw [show st.steerCalls + 1 + m = st.steerCalls + (m + 1) from by omega]
          exact hempty (m + 1) (Nat.succ_lt_succ hm'))
      (by show (ctx.steer (st.steerCalls + 1 + pre'.length)).isEmpty = false
          rw [show st.steerCalls + 1 + pre'.length =
            st.steerCalls + (pre'.length + 1) from by omega]
          exact hsteer)
      (by intro t ht
          exact hok t (List.mem_cons_of_mem p ht))
    simp only [List.cons_append, runToolCalls, hm, dequeueSteer]
    rw [if_pos h0]
    simp only [List.append_eq]
    simp only [hrec]
    simp [execCallEvents, List.append_assoc]
    have harith : st.steerCalls + 1 + pre'.length = st.steerCalls + (pre'.length + 1) := by
      omega
    exact ⟨harith, by rw [harith]⟩

theorem skipRemainingCalls_eq (rest : List ToolCall) :
    (skipRemainingCalls rest).1 = rest.flatMap (fun r =>
      [{ type := .toolCallStart, toolCall := some (cloneToolCall r) },
       { type := .toolResult,
         toolResult := some
          { toolCallID := (cloneToolCall r).id
            toolName := (cloneToolCall r).name
            content := skippedToolCallMessage
            isError := true } },
       { type := .toolCallEnd, toolCall := some (cloneToolCall r) }]) ∧
    (skipRemainingCalls rest).2 = rest.map (fun r => skipToolCall (cloneToolCall r)) := by
  induction rest with
  | nil => exact ⟨rfl, rfl⟩
  | cons r rs ih =>
    rcases hrec : skipRemainingCalls rs with ⟨evs, msgs⟩
    rw [hrec] at ih
    simp [skipRemainingCalls, hrec, ih.1, ih.2, skipToolCall]

/-- C3: in a tool_use turn, if the steering queue is empty after each of the
first `pre.length` tool calls and non-empty right after call `c` executes,
then exactly `pre ++ [c]` are executed; every remaining call in `rest` gets a
synthesized `tool_call_start`, a `tool_result` with content "Skipped due to
queued user message." and `is_error = true`, and a `tool_call_end`; the turn
returns the dequeued steering messages as the next turn's pending messages;
and any next turn with non-empty pending messages sends a request that is the
accumulated conversation followed by (a clone of) those steering messages. -/
theorem c3_steering_skips_remaining
    (ctx : LoopCtx) (fn : ToolCall → Except GoError Message)
    (pre : List ToolCall) (c : ToolCall) (rest : List ToolCall)
    (st : LoopSt) (msgs : List Message)
    (hempty : ∀ m, m < pre.length → (ctx.steer (st.steerCalls + m)).isEmpty = true)
    (hsteer : (ctx.steer (st.steerCalls + pre.length)).isEmpty = false)
    (hok : ∀ t ∈ pre ++ [c], (fn (cloneToolCall t)).isOk = true) :
    runToolCalls ctx fn st msgs (pre ++ c :: rest) =
      { events := (pre ++ [c]).flatMap (execCallEvents fn) ++
          rest.flatMap (fun r =>
            [{ type := .toolCallStart, toolCall := some (cloneToolCall r) },
             { type := .toolResult,
               toolResult := some
                { toolCallID := (cloneToolCall r).id
                  toolName := (cloneToolCall r).name
                  content := skippedToolCallMessage
                  isError := true } },
             { type := .toolCallEnd, toolCall := some (cloneToolCall r) }])
        executed := (pre ++ [c]).map cloneToolCall
        result := .ok (msgs ++ (pre ++ [c]).map (execMsg fn) ++
            rest.map (fun r => skipToolCall (cloneToolCall r)),
          { st with steerCalls := st.steerCalls + pre.length + 1 },
          ctx.steer (st.steerCalls + pre.length)) } ∧
    (∀ (fuel : Nat) (st2 : LoopSt) (msgs2 pending2 : List Message),
      pending2.isEmpty = false →
      (runTurns ctx (fuel + 1) st2 msgs2 pending2).sentRequests.head? =
        some (msgs2 ++ cloneMessages pending2)) := by
  refine ⟨?_, fun fuel st2 msgs2 pending2 h =>
    runTurns_sent_head ctx fuel st2 msgs2 pending2 h⟩
  rw [runToolCalls_steer_eq ctx fn pre c rest st msgs hempty hsteer hok,
    (skipRemainingCalls_eq rest).1, (skipRemainingCalls_eq rest).2]

/-- Witness for `c3_steering_skips_remaining`: in the C3 scenario the first
call executes, the second is skipped with the synthesized triple, and the
steering message is handed to the next turn. -/
theorem c3_witness :
    runToolCalls c3ctx c3fn {} [] ([] ++ c3call1 :: [c3call2]) =
      { events := ([] ++ [c3call1]).flatMap (execCallEvents c3fn) ++
          [c3call2].flatMap (fun r =>
            [{ type := .toolCallStart, toolCall := some (cloneToolCall r) },
             { type := .toolResult,
               toolResult := some
                { toolCallID := (cloneToolCall r).id
                  toolName := (cloneToolCall r).name
                  content := skippedToolCallMessage
                  isError := true } },
             { type := .toolCallEnd, toolCall := some (cloneToolCall r) }])
        executed := ([] ++ [c3call1]).map cloneToolCall
        result := .ok ([] ++ ([] ++ [c3call1]).map (execMsg c3fn) ++
            [c3call2].map (fun r => skipToolCall (cloneToolCall r)),
          { steerCalls := (({} : LoopSt)).steerCalls + ([] : List ToolCall).length + 1 },
          c3ctx.steer ((({} : LoopSt)).steerCalls + ([] : List ToolCall).length)) } ∧
    (runTurns c3ctx (0 + 1) {} [] [userTextMessage (str "interrupt")]).sentRequests.head? =
      some ([] ++ cloneMessages [userTextMessage (str "interrupt")]) := by
  have h := c3_steering_skips_remaining c3ctx c3fn [] c3call1 [c3call2] {} []
    (fun m hm => absurd hm (Nat.not_lt_zero m)) (by decide) (by decide)
  exact ⟨h.1, h.2 0 {} [] [userTextMessage (str "interrupt")] (by decide)⟩

theorem walkBranch_congr (byID : List (GoStr × Entry)) :
    ∀ (fuel : Nat) (v v' : List GoStr), (∀ x, x ∈ v ↔ x ∈ v') →
    ∀ c, walkBranch byID fuel v c = walkBranch byID fuel v' c := by
  intro fuel
  induction fuel with
  | zero => intro v v' _ c; rfl
  | succ fuel ih =>
    intro v v' hv c
    simp only [walkBranch]
    by_cases h0 : c = []
    · rw [if_pos h0, if_pos h0]
    · rw [if_neg h0, if_neg h0]
      by_cases h1 : c ∈ v
      · rw [if_pos h1, if_pos ((hv c).mp h1)]
      · rw [if_neg h1, if_neg (fun hx => h1 ((hv c).mpr hx))]
        rcases hE : entryLookup byID c with _ | entry
        · simp only [hE]
        · simp only [hE]
          have hrec := ih (c :: v) (c :: v')
            (by intro x
                simp only [List.mem_cons]
                exact or_congr Iff.rfl (hv x))
            (trimGo entry.parentID)
          rw [hrec]

theorem entryLookup_mem {byID : List (GoStr × Entry)} {c : GoStr} {entry : Entry}
    (h : entryLookup byID c = some entry) :
    ∃ p ∈ byID, p.2 = entry := by
  simp only [entryLookup, Option.map_eq_some'] at h
  obtain ⟨pr, hfind, hsnd⟩ := h
  exact ⟨pr, List.mem_of_find?_eq_some hfind, hsnd⟩

theorem walk_cons_agree (byID : List (GoStr × Entry)) (E : Entry)
    (Hf2 : ∀ p ∈ byID, trimGo p.2.parentID ≠ E.id) :
    ∀ (fuel : Nat) (v : List GoStr) (c : GoStr), c ≠ E.id →
    walkBranch ((E.id, E) :: byID) fuel (E.id :: v) c = walkBranch byID fuel v c := by
  intro fuel
  induction fuel with
  | zero => intro v c _; rfl
  | succ fuel ih =>
    intro v c hc
    simp only [walkBranch]
    by_cases h0 : c = []
    · rw [if_pos h0, if_pos h0]
    · rw [if_neg h0, if_neg h0]
      by_cases h1 : c ∈ v
      · rw [if_pos (List.mem_cons_of_mem _ h1), if_pos h1]
      · have h1' : ¬ c ∈ E.id :: v := by
          intro hx
          rcases List.mem_cons.mp hx with hx0 | hx1
          · exact hc hx0
          · exact h1 hx1
        rw [if_neg h1', if_neg h1]
        have hlk : entryLookup ((E.id, E) :: byID) c = entryLookup byID c := by
          simp only [entryLookup]
          rw [List.find?_cons_of_neg]
          intro hx
          exact hc (of_decide_eq_true hx).symm
        rw [hlk]
        rcases hE : entryLookup byID c with _ | entry
        · simp only [hE]
        · simp only [hE]
          have hnext : trimGo entry.parentID ≠ E.id := by
            obtain ⟨p, hp, hpe⟩ := entryLookup_mem hE
            rw [← hpe]
            exact Hf2 p hp
          have hswap := walkBranch_congr ((E.id, E) :: byID) fuel
            (c :: E.id :: v) (E.id :: c :: v)
            (by intro x
                simp only [List.mem_cons]
                tauto)
            (trimGo entry.parentID)
          rw [hswap, ih (c :: v) (trimGo entry.parentID) hnext]

theorem branchEntries_cons (s s' : SessState) (E : Entry)
    (hby : s'.byID = (E.id, E) :: s.byID)
    (hpar : trimGo E.parentID = trimGo s.leafID)
    (Hf2 : ∀ p ∈ s.byID, trimGo p.2.parentID ≠ E.id)
    (Hf3 : trimGo s.leafID ≠ E.id)
    (Htrim : trimGo E.id = E.id) (Hne : E.id ≠ []) :
    branchEntriesLocked s' E.id = branchEntriesLocked s s.leafID ++ [E] := by
  have hlk : entryLookup ((E.id, E) :: s.byID) E.id = some E := by
    simp [entryLookup]
  have hstep : walkBranch ((E.id, E) :: s.byID) (s.byID.length + 1 + 1) [] E.id
      = E :: walkBranch ((E.id, E) :: s.byID) (s.byID.length + 1) [E.id]
          (trimGo E.parentID) := by
    conv_lhs => rw [walkBranch]
    rw [if_neg Hne, if_neg (List.not_mem_nil E.id)]
    simp only [hlk]
  have hlen : ((E.id, E) :: s.byID).length + 1 = s.byID.length + 1 + 1 := by
    simp
  simp only [branchEntriesLocked, Htrim, hby]
  rw [if_neg Hne, hlen, hstep, hpar,
    walk_cons_agree s.byID E Hf2 (s.byID.length + 1) [] (trimGo s.leafID) Hf3]
  by_cases hleaf : trimGo s.leafID = []
  · rw [if_pos hleaf, hleaf]
    simp [walkBranch]
  · rw [if_neg hleaf]
    exact List.reverse_cons _ _

theorem findIdx?_append_cons {α : Type} (p : α → Bool) :
    ∀ (A : List α) (x : α) (C : List α) (i : Nat),
    (∀ a ∈ A, p a = false) → p x = true →
    (A ++ x :: C).findIdx? p i = some (i + A.length) := by
  intro A
  induction A with
  | nil =>
    intro x C i _ hx
    simp [List.findIdx?_cons, hx]
  | cons a A' ih =>
    intro x C i hA hx
    have ha : p a = false := hA a (List.mem_cons_self a A')
    simp only [List.cons_append, List.findIdx?_cons, ha, Bool.false_eq_true, if_false]
    rw [ih x C (i + 1) (fun b hb => hA b (List.mem_cons_of_mem a hb)) hx]
    congr 1
    simp [List.length_cons]
    omega

theorem scanCompaction_append (B : List Entry) (E : Entry)
    (hE : E.type = str "compaction") :
    scanCompaction (B ++ [E]) =
      some (B.length, compactionFirstKeptID E, trimGo E.content) := by
  simp only [scanCompaction, List.enum_append, List.foldl_append]
  simp [List.enumFrom, hE]

theorem filter_eq_append_cons {α : Type} (p : α → Bool) :
    ∀ (l xs : List α) (x : α) (ys : List α), l.filter p = xs ++ x :: ys →
    ∃ A C, l = A ++ x :: C ∧ A.filter p = xs ∧ C.filter p = ys := by
  intro l
  induction l with
  | nil =>
    intro xs x ys h
    simp at h
  | cons a l ih =>
    intro xs x ys h
    by_cases hp : p a = true
    · rw [List.filter_cons_of_pos hp] at h
      cases xs with
      | nil =>
        simp only [List.nil_append] at h
        injection h with h1 h2
        subst h1
        exact ⟨[], l, rfl, rfl, h2⟩
      | cons b xs' =>
        injection h with h1 h2
        subst h1
        obtain ⟨A, C, rfl, hA, hC⟩ := ih xs' x ys h2
        exact ⟨a :: A, C, rfl, by rw [List.filter_cons_of_pos hp, hA], hC⟩
    · rw [List.filter_cons_of_neg hp] at h
      obtain ⟨A, C, rfl, hA, hC⟩ := ih xs x ys h
      exact ⟨a :: A, C, rfl, by rw [List.filter_cons_of_neg hp, hA], hC⟩

theorem filterMap_entryToMessage_filter :
    ∀ l : List Entry, l.filterMap entryToMessage =
      (l.filter isMessageEntry).filterMap entryToMessage := by
  intro l
  induction l with
  | nil => rfl
  | cons e l ih =>
    by_cases h : isMessageEntry e = true
    · rw [List.filter_cons_of_pos h]
      simp only [List.filterMap_cons]
      rw [ih]
    · have hnone : entryToMessage e = none := by
        simp only [isMessageEntry, Bool.or_eq_true, decide_eq_true_eq] at h
        push_neg at h
        obtain ⟨⟨h1, h2⟩, h3⟩ := h
        simp [entryToMessage, h1, h2, h3]
      rw [List.filter_cons_of_neg h]
      simp only [List.filterMap_cons, hnone]
      exact ih

theorem rebuild_after_compaction (s1 : SessState) (B : List Entry) (E : Entry)
    (hbr : branchEntriesLocked s1 s1.leafID = B ++ [E])
    (hEtype : E.type = str "compaction")
    (A : List Entry) (k0 : Entry) (C : List Entry)
    (hB : B = A ++ k0 :: C)
    (hfk : compactionFirstKeptID E = k0.id)
    (hk0ne : ¬ k0.id = [])
    (hAid : ∀ a ∈ A, ¬ a.id = k0.id) :
    rebuildConversationLocked s1 =
      (if ¬ trimGo E.content = [] then
        [{ role := .assistant, content := [{ type := .text, text := trimGo E.content }] }]
       else []) ++ (k0 :: C).filterMap entryToMessage := by
  have hA' : ∀ a ∈ A, (fun e : Entry => decide (e.id = k0.id)) a = false := by
    intro a ha
    exact decide_eq_false (hAid a ha)
  have hx : (fun e : Entry => decide (e.id = k0.id)) k0 = true :=
    decide_eq_true rfl
  simp only [rebuildConversationLocked, hbr, scanCompaction_append B E hEtype, hfk]
  rw [if_neg (by simp)]
  rw [if_pos hk0ne]
  rw [List.take_left]
  rw [hB]
  simp only [findIdx?_append_cons (fun e : Entry => decide (e.id = k0.id)) A k0 C 0
    hA' hx, Nat.zero_add]
  rw [show (A ++ k0 :: C) ++ [E] = A ++ (k0 :: (C ++ [E])) from by simp]
  rw [List.drop_left]
  have hlen1 : (A ++ k0 :: C).length - A.length = C.length + 1 := by
    simp [List.length_append]
  rw [hlen1]
  rw [List.take_succ_cons]
  rw [show (C ++ [E]).take C.length = C from List.take_left C [E]]
  have hlen2 : (A ++ (k0 :: (C ++ [E]))).length ≤ (A ++ k0 :: C).length + 1 := by
    simp only [List.length_append, List.length_cons, List.length_nil]
    omega
  rw [List.drop_eq_nil_of_le hlen2]
  simp

theorem compactLocked_eq (now : Int) (s : SessState) (keep : Int) (instr : GoStr)
    (Hkeep : 0 < keep)
    (Hbig : keep < ((compactMessageEntries s).length : Int)) :
    compactLocked now s 0 keep instr =
      (.ok { summary := buildCompactionSummary (compactDropped s keep) instr
             droppedMessages := (compactDropped s keep).length
             firstKeptEntry := ((compactKept s keep).headD {}).id },
       { compactState now s keep instr with
         conversation := rebuildConversationLocked (compactState now s keep instr) }) := by
  have Hbig' : keep <
      (((branchEntriesLocked s s.leafID).filter isMessageEntry).length : Int) := Hbig
  have hc1 : (decide ((0:Int) > 0) &&
      decide ((countConversationMessages s.conversation : Int) ≤ (0:Int))) = false := by
    rw [show decide ((0:Int) > 0) = false from by decide]
    rfl
  simp only [compactLocked]
  rw [if_neg (by rw [hc1]; simp)]
  rw [if_neg (show ¬ keep ≤ 0 by omega)]
  rw [if_neg (show ¬ ((((branchEntriesLocked s s.leafID).filter
      isMessageEntry).length : Int) ≤ keep) by omega)]
  rfl

/-- C4 (amended): a `Compact(keep)` call on a session with more than `keep`
message entries on the branch succeeds, and the rebuilt conversation is the
compaction summary (when non-empty, as one assistant message) followed by
exactly the messages of the last `keep` message-entries of the branch.
Immediately re-running `Compact` with the same `keep` does NOT fail with
`CompactionNotNeeded` — the appended `compaction` entry is not a message
entry, so the branch still holds the same message entries and the second
call compacts again, successfully (refuting the claim's second half; see
`Gar.c4_counterexample` for a concrete run). -/
theorem c4_amended_compaction (now now2 : Int) (s : SessState) (keep : Int)
    (instr : GoStr)
    (Hkeep : 0 < keep)
    (Hbig : keep < ((compactMessageEntries s).length : Int))
    (Hfresh2 : ∀ p ∈ s.byID, trimGo p.2.parentID ≠ zeroPad6 s.nextEntryID)
    (Hfresh3 : trimGo s.leafID ≠ zeroPad6 s.nextEntryID)
    (Htrim : trimGo (zeroPad6 s.nextEntryID) = zeroPad6 s.nextEntryID)
    (Hne : zeroPad6 s.nextEntryID ≠ [])
    (Hnodup : ((branchEntriesLocked s s.leafID).map Entry.id).Nodup)
    (HidOk : ∀ e ∈ branchEntriesLocked s s.leafID,
      trimGo e.id = e.id ∧ ¬ e.id = []) :
    (compactLocked now s 0 keep instr).1.isOk = true ∧
    (compactLocked now s 0 keep instr).2.conversation =
      (if ¬ trimGo (buildCompactionSummary (compactDropped s keep) instr) = [] then
        [{ role := .assistant,
           content :=
            [{ type := .text,
               text := trimGo (buildCompactionSummary (compactDropped s keep) instr) }] }]
       else []) ++ (compactKept s keep).filterMap entryToMessage ∧
    (compactLocked now2 (compactLocked now s 0 keep instr).2 0 keep instr).1.isOk
      = true := by
  have hceq := compactLocked_eq now s keep instr Hkeep Hbig
  have hEid : (compactEntry now s keep instr).id = zeroPad6 s.nextEntryID := rfl
  have hEpar : trimGo (compactEntry now s keep instr).parentID = trimGo s.leafID :=
    rfl
  have hEtype : (compactEntry now s keep instr).type = str "compaction" := rfl
  have hEmsg : isMessageEntry (compactEntry now s keep instr) = false := rfl
  have hf2' : ∀ p ∈ s.byID,
      trimGo p.2.parentID ≠ (compactEntry now s keep instr).id := by
    intro p hp
    rw [hEid]
    exact Hfresh2 p hp
  have hf3' : trimGo s.leafID ≠ (compactEntry now s keep instr).id := by
    rw [hEid]
    exact Hfresh3
  have htrim' : trimGo (compactEntry now s keep instr).id =
      (compactEntry now s keep instr).id := by
    rw [hEid]
    exact Htrim
  have hne' : (compactEntry now s keep instr).id ≠ [] := by
    rw [hEid]
    exact Hne
  have hbr1 := branchEntries_cons s (compactState now s keep instr)
    (compactEntry now s keep instr) rfl hEpar hf2' hf3' htrim' hne'
  have hlen_pos : keep.toNat < (compactMessageEntries s).length := by omega
  have hkept_ne : compactKept s keep ≠ [] := by
    simp only [compactKept, compactDropCount]
    intro h
    have hle := List.drop_eq_nil_iff.mp h
    omega
  obtain ⟨k0, ktail, hkept⟩ : ∃ k0 ktail, compactKept s keep = k0 :: ktail := by
    cases hk : compactKept s keep with
    | nil => exact absurd hk hkept_ne
    | cons a b => exact ⟨a, b, rfl⟩
  have hsplit : (branchEntriesLocked s s.leafID).filter isMessageEntry =
      compactDropped s keep ++ k0 :: ktail := by
    rw [← hkept]
    show compactMessageEntries s = compactDropped s keep ++ compactKept s keep
    simp only [compactDropped, compactKept]
    exact (List.take_append_drop _ _).symm
  obtain ⟨A, C, hBdecomp, hAfilter, hCfilter⟩ :=
    filter_eq_append_cons isMessageEntry (branchEntriesLocked s s.leafID)
      (compactDropped s keep) k0 ktail hsplit
  have hk0kept : k0 ∈ compactKept s keep := by
    rw [hkept]
    exact List.mem_cons_self _ _
  have hk0mB : k0 ∈ compactMessageEntries s := List.mem_of_mem_drop hk0kept
  have hk0mem : k0 ∈ branchEntriesLocked s s.leafID := List.mem_of_mem_filter hk0mB
  have hk0msg : isMessageEntry k0 = true := List.of_mem_filter hk0mB
  have hk0id := HidOk k0 hk0mem
  have hfk : compactionFirstKeptID (compactEntry now s keep instr) = k0.id := by
    show trimGo ((compactKept s keep).headD {}).id = k0.id
    rw [hkept, List.headD_cons]
    exact hk0id.1
  have hAid : ∀ a ∈ A, ¬ a.id = k0.id := by
    intro a ha heq
    have hmap : ((A ++ k0 :: C).map Entry.id).Nodup := by
      rw [← hBdecomp]
      exact Hnodup
    rw [List.map_append, List.map_cons] at hmap
    have hdisj := List.disjoint_of_nodup_append hmap
    have hin : a.id ∈ k0.id :: C.map Entry.id := by
      rw [heq]
      exact List.mem_cons_self _ _
    exact hdisj (List.mem_map_of_mem Entry.id ha) hin
  have hrebuild := rebuild_after_compaction (compactState now s keep instr)
    (branchEntriesLocked s s.leafID) (compactEntry now s keep instr)
    hbr1 hEtype A k0 C hBdecomp hfk hk0id.2 hAid
  have hfm : (k0 :: C).filterMap entryToMessage =
      (compactKept s keep).filterMap entryToMessage := by
    rw [filterMap_entryToMessage_filter (k0 :: C), List.filter_cons_of_pos hk0msg,
      hCfilter, hkept]
  refine ⟨?_, ?_, ?_⟩
  · simp only [hceq]
    rfl
  · simp only [hceq]
    show rebuildConversationLocked (compactState now s keep instr) = _
    rw [hrebuild, hfm]
    rfl
  · have hbr2 := branchEntries_cons s
      { compactState now s keep instr with
        conversation := rebuildConversationLocked (compactState now s keep instr) }
      (compactEntry now s keep instr) rfl hEpar hf2' hf3' htrim' hne'
    have hm2 : compactMessageEntries
        { compactState now s keep instr with
          conversation := rebuildConversationLocked (compactState now s keep instr) }
        = compactMessageEntries s := by
      show (branchEntriesLocked _ (compactEntry now s keep instr).id).filter
          isMessageEntry = compactMessageEntries s
      rw [hbr2, List.filter_append]
      simp [hEmsg, compactMessageEntries]
    simp only [hceq]
    rw [compactLocked_eq now2 _ keep instr Hkeep (by rw [hm2]; exact Hbig)]
    rfl

/-- Witness for `c4_amended_compaction` at the concrete C4 session (three
user entries, keep = 2). -/
theorem c4_witness :
    (compactLocked 100 c4s 0 2 []).1.isOk = true ∧
    (compactLocked 100 c4s 0 2 []).2.conversation =
      (if ¬ trimGo (buildCompactionSummary (compactDropped c4s 2) []) = [] then
        [{ role := .assistant,
           content :=
            [{ type := .text,
               text := trimGo (buildCompactionSummary (compactDropped c4s 2) []) }] }]
       else []) ++ (compactKept c4s 2).filterMap entryToMessage ∧
    (compactLocked 101 (compactLocked 100 c4s 0 2 []).2 0 2 []).1.isOk = true :=
  c4_amended_compaction 100 101 c4s 2 []
    (by decide) (by decide) (by decide) (by decide) (by decide) (by decide)
    (by decide) (by decide)
